import Mathlib

/-!
Verification development for the rule34video plugin's resolution-and-extraction
engine.  The Python sources (`modules/utils.py`, `modules/video.py`,
`modules/client.py`, `main.py`) are shallowly embedded over `List Char`
(strings restricted to the ASCII fragment the program manipulates); every
regular-expression search used by the code is transcribed as an explicit
deterministic scanner with the same leftmost/greedy semantics as the concrete
pattern it embeds.
-/

namespace R34

/-- ASCII decimal digit, the semantics of `\d` and `str.isdigit` on the
ASCII fragment. -/
def isAsciiDigit (c : Char) : Bool :=
  '0' ≤ c && c ≤ '9'

/-- Whitespace characters removed by Python `str.strip()` (ASCII fragment). -/
def isPySpace (c : Char) : Bool :=
  c = ' ' || c = '\t' || c = '\n' || c = '\r' || c = '\x0b' || c = '\x0c'

/-- ASCII lower-casing, the semantics of `str.lower()` and of `re.IGNORECASE`
comparisons on the ASCII fragment. -/
def asciiLower (c : Char) : Char :=
  if 'A' ≤ c && c ≤ 'Z' then Char.ofNat (c.toNat + 32) else c

/-- `str.lower()` on a whole string. -/
def lowerL (l : List Char) : List Char :=
  l.map asciiLower

/-- `str.strip()` (no argument): drop whitespace from both ends. -/
def pyStrip (l : List Char) : List Char :=
  ((l.dropWhile isPySpace).reverse.dropWhile isPySpace).reverse

/-- `str.rstrip('/')`: drop trailing slashes. -/
def rstripSlash (l : List Char) : List Char :=
  (l.reverse.dropWhile (· = '/')).reverse

/-- Numeric value of a digit list (most significant first). -/
def digitsToNat (l : List Char) : Nat :=
  l.foldl (fun acc c => acc * 10 + (c.toNat - '0'.toNat)) 0

/-- Python `int(str)` restricted to the shapes reachable in this code base:
optional surrounding whitespace, optional sign, then a non-empty digit run.
`none` models the `ValueError` the call raises otherwise. -/
def pyInt (l : List Char) : Option Int :=
  match pyStrip l with
  | '-' :: ds => if ds ≠ [] && ds.all isAsciiDigit then some (-(digitsToNat ds : Int)) else none
  | '+' :: ds => if ds ≠ [] && ds.all isAsciiDigit then some (digitsToNat ds : Int) else none
  | ds => if ds ≠ [] && ds.all isAsciiDigit then some (digitsToNat ds : Int) else none

/-- Python `str.isdigit()` on the ASCII fragment: non-empty and all digits. -/
def pyIsDigitStr (l : List Char) : Bool :=
  !l.isEmpty && l.all isAsciiDigit

/-- Python substring test `needle in hay`. -/
def hasSub (nd : List Char) : List Char → Bool
  | [] => nd.isEmpty
  | c :: rest => nd.isPrefixOf (c :: rest) || hasSub nd rest

/-- Case-insensitive substring test (`needle.lower() in hay.lower()`). -/
def hasSubCI (nd hay : List Char) : Bool :=
  hasSub (lowerL nd) (lowerL hay)

/-- Coerce a Lean string literal to the character-list representation. -/
def strL (s : String) : List Char :=
  s.data

/-! ### `utils.parse_duration` -/

/-- Maximal leading digit run (`\d+`, greedy). -/
def takeDigits (l : List Char) : List Char :=
  l.takeWhile isAsciiDigit

/-- One `(?:(\d+)X)?` unit of the ISO pattern (case-insensitive unit letter):
greedily read a non-empty digit run followed by the unit, else leave the
input untouched with no capture. -/
def optNumUnit (u : Char) (l : List Char) : Option (List Char) × List Char :=
  if (takeDigits l).isEmpty then (none, l)
  else
    match l.drop (takeDigits l).length with
    | c :: rest => if asciiLower c = u then (some (takeDigits l), rest) else (none, l)
    | [] => (none, l)

/-- `re.match(r'PT(?:(\d+)H)?(?:(\d+)M)?(?:(\d+)S)?', s, re.IGNORECASE)`:
`some` of the three captured groups when the anchored match succeeds. -/
def isoMatch (l : List Char) : Option (Option (List Char) × Option (List Char) × Option (List Char)) :=
  match l with
  | p :: t :: rest =>
    if asciiLower p = 'p' && asciiLower t = 't' then
      let o1 := optNumUnit 'h' rest
      let o2 := optNumUnit 'm' o1.2
      let o3 := optNumUnit 's' o2.2
      some (o1.1, o2.1, o3.1)
    else none
  | _ => none

/-- The optional `(?::(\d+))?` third group of the clock pattern. -/
def timeG3 : List Char → Option (List Char)
  | ':' :: r3 => if (takeDigits r3).isEmpty then none else some (takeDigits r3)
  | _ => none

/-- `re.match(r'(\d+):(\d+)(?::(\d+))?', s)`: the three groups of the
anchored clock-format match. -/
def timeMatch (l : List Char) : Option (List Char × List Char × Option (List Char)) :=
  if (takeDigits l).isEmpty then none
  else
    match l.drop (takeDigits l).length with
    | ':' :: r2 =>
      if (takeDigits r2).isEmpty then none
      else some (takeDigits l, takeDigits r2, timeG3 (r2.drop (takeDigits r2).length))
    | _ => none

/-- Python `int(group or 0)` on an optional capture. -/
def intOr0 (g : Option (List Char)) : Option Int :=
  match g with
  | none => some 0
  | some ds => pyInt ds

/-- `utils.parse_duration`: ISO-8601 shape, then `H:MM:SS` / `MM:SS`, then a
raw digit string, else 0.  `none` models an uncaught exception. -/
def parseDuration (s : List Char) : Option Int :=
  if s.isEmpty then some 0
  else
    let t := pyStrip s
    match isoMatch t with
    | some (g1, g2, g3) => do
      let h ← intOr0 g1
      let m ← intOr0 g2
      let sec ← intOr0 g3
      pure (h * 3600 + m * 60 + sec)
    | none =>
      match timeMatch t with
      | some (d1, d2, g3) => do
        match g3 with
        | some d3 => do
          let h ← pyInt d1
          let m ← pyInt d2
          let sec ← pyInt d3
          pure (h * 3600 + m * 60 + sec)
        | none => do
          let m ← pyInt d1
          let sec ← pyInt d2
          pure (m * 60 + sec)
      | none =>
        if pyIsDigitStr t then pyInt t else some 0

/-! ### Constants (`consts.py`) and `utils.extract_video_id` -/

/-- `ROOT_URL = "https://rule34video.com"`. -/
def rootUrl : List Char :=
  strL "https://rule34video.com"

/-- `REGEX_VIDEO_ID = /videos?/(\d+)` tried at one position: the literal
`/video`, an optional `s` (backtracking to none only helps when the next
character is `/`), a `/`, then a greedy non-empty digit capture. -/
def matchVideoIdAt (l : List Char) : Option (List Char) :=
  match l with
  | '/' :: 'v' :: 'i' :: 'd' :: 'e' :: 'o' :: rest =>
    match rest with
    | 's' :: '/' :: r =>
      let ds := takeDigits r
      if ds.isEmpty then none else some ds
    | '/' :: r =>
      let ds := takeDigits r
      if ds.isEmpty then none else some ds
    | _ => none
  | _ => none

/-- `REGEX_VIDEO_ID.search`: leftmost position where the pattern matches. -/
def searchVideoId : List Char → Option (List Char)
  | [] => none
  | c :: rest =>
    match matchVideoIdAt (c :: rest) with
    | some ds => some ds
    | none => searchVideoId rest

/-- `REGEX_VIDEO_ID_ALT = video[_-]?(\d+)` tried at one position. -/
def matchVideoAltAt (l : List Char) : Option (List Char) :=
  match l with
  | 'v' :: 'i' :: 'd' :: 'e' :: 'o' :: rest =>
    match rest with
    | x :: r =>
      if x = '_' || x = '-' then
        let ds := takeDigits r
        if ds.isEmpty then none else some ds
      else
        let ds := takeDigits rest
        if ds.isEmpty then none else some ds
    | [] => none
  | _ => none

/-- `REGEX_VIDEO_ID_ALT.search`. -/
def searchVideoAlt : List Char → Option (List Char)
  | [] => none
  | c :: rest =>
    match matchVideoAltAt (c :: rest) with
    | some ds => some ds
    | none => searchVideoAlt rest

/-- `utils.extract_video_id`: digits-only fast path, then the two URL
patterns, else `None`. -/
def extractVideoId (s : List Char) : Option (List Char) :=
  if s.isEmpty then none
  else
    let t := pyStrip s
    if pyIsDigitStr t then some t
    else
      match searchVideoId t with
      | some ds => some ds
      | none => searchVideoAlt t

/-- `utils.build_video_url`. -/
def buildVideoUrl (vid : List Char) : List Char :=
  rootUrl ++ strL "/videos/" ++ vid ++ strL "/"

/-! ### `utils.normalize_quality` and `utils.select_best_quality` -/

/-- `re.search(r'(\d+)', q)`: the leftmost maximal digit run, if any. -/
def firstDigitRun : List Char → Option (List Char)
  | [] => none
  | c :: rest =>
    if isAsciiDigit c then some (takeDigits (c :: rest)) else firstDigitRun rest

/-- `get_resolution` (local to `select_best_quality`): numeric value of the
first digit run, defaulting to 0. -/
def getResolution (q : List Char) : Nat :=
  match firstDigitRun q with
  | some ds => digitsToNat ds
  | none => 0

/-- `utils.normalize_quality` on a string argument. -/
def normalizeQuality (q : List Char) : List Char :=
  let t := pyStrip (lowerL q)
  if t == strL "best" || t == strL "highest" || t == strL "max" then strL "best"
  else if t == strL "worst" || t == strL "lowest" || t == strL "min" then strL "worst"
  else if t == strL "half" || t == strL "medium" || t == strL "mid" then strL "half"
  else
    match firstDigitRun t with
    | some ds => ds ++ ['p']
    | none => strL "best"

/-- Comparison used by `sorted(available_qualities, key=get_resolution,
reverse=True)`: `a` may stand before `b` when its resolution is at least
`b`'s. -/
def qGE (a b : List Char) : Prop :=
  getResolution b ≤ getResolution a

instance : DecidableRel qGE := fun _ _ => inferInstanceAs (Decidable (_ ≤ _))

instance : IsTotal (List Char) qGE :=
  ⟨fun a b => (Nat.le_total (getResolution b) (getResolution a)).imp id id⟩

instance : IsTrans (List Char) qGE :=
  ⟨fun _ _ _ h1 h2 => Nat.le_trans h2 h1⟩

/-- Python's `sorted(..., key=get_resolution, reverse=True)`: the (unique)
stable descending sort, realised as an insertion sort. -/
def pySortQualities (l : List (List Char)) : List (List Char) :=
  List.insertionSort qGE l

/-- `utils.select_best_quality`. -/
def selectBestQuality (avail : List (List Char)) (target : List Char) : Option (List Char) :=
  if avail.isEmpty then none
  else
    match pySortQualities avail with
    | [] => none
    | q :: qs =>
      if normalizeQuality target == strL "best" then some q
      else if normalizeQuality target == strL "worst" then
        some ((q :: qs).getLast (List.cons_ne_nil q qs))
      else if normalizeQuality target == strL "half" then
        some ((q :: qs).getD ((qs.length + 1) / 2) q)
      else
        match (q :: qs).find? (fun x =>
            getResolution x == getResolution (normalizeQuality target)) with
        | some x => some x
        | none =>
          match (q :: qs).find? (fun x =>
              decide (getResolution x ≤ getResolution (normalizeQuality target))) with
          | some x => some x
          | none => some ((q :: qs).getLast (List.cons_ne_nil q qs))

/-! ### The quality-URL dictionary (`Video._quality_urls`) -/

/-- A Python `dict[str, str]` in insertion order. -/
abbrev QMap := List (List Char × List Char)

/-- Dictionary read: first (unique) key match. -/
def dlookup (m : QMap) (k : List Char) : Option (List Char) :=
  match m with
  | [] => none
  | (k', v) :: rest => if k' == k then some v else dlookup rest k

/-- Dictionary write `m[k] = v`: update in place, else append. -/
def dictSet (m : QMap) (k v : List Char) : QMap :=
  match m with
  | [] => [(k, v)]
  | (k', v') :: rest => if k' == k then (k', v) :: rest else (k', v') :: dictSet rest k v

/-- `list(m.keys())`. -/
def dkeys (m : QMap) : List (List Char) :=
  m.map Prod.fst

/-- `Video.get_video_url`: exact-label hit after normalization, then the
selection algorithm, then the first stored URL. -/
def getVideoUrl (m : QMap) (quality : List Char) : Option (List Char) :=
  if m.isEmpty then none
  else
    match dlookup m (normalizeQuality quality) with
    | some u => some u
    | none =>
      match selectBestQuality (dkeys m) (normalizeQuality quality) with
      | some sel =>
        if sel.isEmpty then m.head?.map Prod.snd
        else dlookup m sel
      | none => m.head?.map Prod.snd

/-! ### Generic string helpers shared by the embedding -/

/-- The single-quote character (codepoint 39). -/
def squote : Char :=
  Char.ofNat 39

/-- The double-quote character (codepoint 34). -/
def dquote : Char :=
  Char.ofNat 34

/-- The opening-brace character (codepoint 123). -/
def lbrace : Char :=
  Char.ofNat 123

/-- Either string-quote character, the class `["\']`. -/
def isQuote (c : Char) : Bool :=
  c = squote || c = dquote

/-- Case-insensitive prefix test for an all-lowercase pattern
(`re.IGNORECASE` literal matching on the ASCII fragment). -/
def isPreCI (pat l : List Char) : Bool :=
  pat.isPrefixOf (lowerL (l.take pat.length))

/-- `str.replace(nd, rep)` (all occurrences, left to right, non-overlapping);
the repository only calls it with a non-empty `nd`.  The fuel equals the
input length, which suffices because every step consumes at least one
character. -/
def replaceAllAux (nd rep : List Char) : Nat → List Char → List Char
  | 0, l => l
  | _ + 1, [] => []
  | fuel + 1, c :: rest =>
    if nd.isPrefixOf (c :: rest) && !nd.isEmpty then
      rep ++ replaceAllAux nd rep fuel ((c :: rest).drop nd.length)
    else
      c :: replaceAllAux nd rep fuel rest

/-- `str.replace(nd, rep)`, see `replaceAllAux`. -/
def replaceAll (nd rep l : List Char) : List Char :=
  replaceAllAux nd rep l.length l

/-- `str.replace(nd, rep, 1)` (first occurrence only). -/
def replaceFirst (nd rep : List Char) : List Char → List Char
  | [] => []
  | c :: rest =>
    if nd.isPrefixOf (c :: rest) then rep ++ (c :: rest).drop nd.length
    else c :: replaceFirst nd rep rest

/-- Order-preserving de-duplication against an already-seen set, the
`seen`/`append` idiom used throughout the repository. -/
def dedupFrom (seen : List (List Char)) : List (List Char) → List (List Char)
  | [] => []
  | x :: xs =>
    if seen.contains x then dedupFrom seen xs
    else x :: dedupFrom (x :: seen) xs

/-- Leftmost-position regex search: try a single-position matcher at every
suffix, as `re.search` does. -/
def searchPat {α : Type} (m : List Char → Option α) : List Char → Option α
  | [] => none
  | c :: rest =>
    match m (c :: rest) with
    | some x => some x
    | none => searchPat m rest

/-! ### `Video._get_url_variants` and `main._parse_video_identifier` -/

/-- The slug-qualified head of the candidate list: the known full URL then
its `/videos/` ↔ `/video/` sibling. -/
def urlVariantsFrom (fu : List Char) : List (List Char) :=
  fu ::
    (if hasSub (strL "/videos/") fu then [replaceAll (strL "/videos/") (strL "/video/") fu]
     else if hasSub (strL "/video/") fu then [replaceAll (strL "/video/") (strL "/videos/") fu]
     else [])

/-- The optional slug-qualified head, absolutised against the origin. -/
def urlVariantsBase : Option (List Char) → List (List Char)
  | none => []
  | some f => urlVariantsFrom (if (strL "http").isPrefixOf f then f else rootUrl ++ f)

/-- `Video._get_url_variants`: the slug-qualified URL and its
singular/plural sibling first (when a full URL is known), then the four
id-only fallbacks, de-duplicated preserving first occurrence. -/
def getUrlVariants (fullUrl : Option (List Char)) (vid : List Char) : List (List Char) :=
  dedupFrom [] (urlVariantsBase fullUrl ++
    [rootUrl ++ strL "/video/" ++ vid ++ strL "/",
     rootUrl ++ strL "/videos/" ++ vid ++ strL "/",
     rootUrl ++ strL "/video/" ++ vid,
     rootUrl ++ strL "/videos/" ++ vid])

/-- `main.Rule34VideoPlugin._parse_video_identifier`: split an `id/slug`
identifier into the id and a fully-qualified `/video/` URL; a bare
identifier consults the caller's id→URL cache. -/
def parseVideoIdentifier (cache : List Char → Option (List Char)) (identifier : List Char) :
    List Char × Option (List Char) :=
  if (pyStrip identifier).contains '/' then
    ((pyStrip identifier).takeWhile (· ≠ '/'),
     some (strL "https://rule34video.com/video/" ++
       (pyStrip identifier).takeWhile (· ≠ '/') ++ strL "/" ++
       rstripSlash (((pyStrip identifier).dropWhile (· ≠ '/')).drop 1) ++ strL "/"))
  else (pyStrip identifier, cache (pyStrip identifier))

/-! ### `Video._clean_video_url` -/

/-- `re.match(r'^function/\d+/(https?://.*)', url)`: capture of the wrapped
URL (running to the end of the line, as `.` does not cross newlines). -/
def funcPrefixMatch (l : List Char) : Option (List Char) :=
  match l with
  | 'f' :: 'u' :: 'n' :: 'c' :: 't' :: 'i' :: 'o' :: 'n' :: '/' :: rest =>
    let ds := takeDigits rest
    if ds.isEmpty then none
    else
      match rest.drop ds.length with
      | '/' :: r =>
        if (strL "http://").isPrefixOf r || (strL "https://").isPrefixOf r then
          some (r.takeWhile (· != '\n'))
        else none
      | _ => none
  | _ => none

/-- `re.sub(r'([^:])//+', r'\1/', url)`: collapse every run of two or more
slashes that is not preceded by a colon (fuel-driven, one character or more
consumed per step). -/
def slashSubAux : Nat → List Char → List Char
  | 0, l => l
  | _ + 1, [] => []
  | _ + 1, [c] => [c]
  | fuel + 1, c :: d :: rest =>
    if (c != ':') && (d == '/') && (match rest with | '/' :: _ => true | _ => false) then
      let slashes := (d :: rest).takeWhile (· == '/')
      c :: '/' :: slashSubAux fuel ((d :: rest).drop slashes.length)
    else
      c :: slashSubAux fuel (d :: rest)

/-- `re.sub(r'([^:])//+', r'\1/', url)`, see `slashSubAux`. -/
def slashSub (l : List Char) : List Char :=
  slashSubAux l.length l

/-- `Video._clean_video_url`.  The empty result plays the role of Python's
falsy return (`None` or `""`); every caller guards on it. -/
def cleanVideoUrl (url : List Char) : List Char :=
  let u0 := pyStrip url
  let u1 :=
    match funcPrefixMatch u0 with
    | some captured => captured
    | none => u0
  let u2 := slashSub u1
  if (strL "http://").isPrefixOf u2 || (strL "https://").isPrefixOf u2 then u2
  else if (strL "//").isPrefixOf u2 then strL "https:" ++ u2
  else if (strL "/").isPrefixOf u2 then rootUrl ++ u2
  else u2

/-! ### `Video._extract_quality_from_url` -/

/-- Greedy `\d{3,4}` followed by a hard stop: a maximal digit run matches
exactly when its length is three or four (a longer run leaves a digit where
the pattern's next token must stand). -/
def digits34 (l : List Char) : Option (List Char) :=
  let ds := takeDigits l
  if ds.length = 3 ∨ ds.length = 4 then some ds else none

/-- `[_/](\d{3,4})p?\.mp4` at one position (case-insensitive tail). -/
def matchQ1At (l : List Char) : Option (List Char) :=
  match l with
  | c :: rest =>
    if c = '_' || c = '/' then
      match digits34 rest with
      | some ds =>
        match rest.drop ds.length with
        | p :: r2 =>
          if asciiLower p = 'p' then
            if isPreCI (strL ".mp4") r2 then some ds else none
          else if isPreCI (strL ".mp4") (p :: r2) then some ds else none
        | [] => none
      | none => none
    else none
  | [] => none

/-- `[_/](\d{3,4})p[_/]` at one position. -/
def matchQ2At (l : List Char) : Option (List Char) :=
  match l with
  | c :: rest =>
    if c = '_' || c = '/' then
      match digits34 rest with
      | some ds =>
        match rest.drop ds.length with
        | p :: d :: _ => if asciiLower p = 'p' && (d = '_' || d = '/') then some ds else none
        | _ => none
      | none => none
    else none
  | [] => none

/-- `[_/](\d{3,4})[_/]` at one position. -/
def matchQ3At (l : List Char) : Option (List Char) :=
  match l with
  | c :: rest =>
    if c = '_' || c = '/' then
      match digits34 rest with
      | some ds =>
        match rest.drop ds.length with
        | d :: _ => if d = '_' || d = '/' then some ds else none
        | [] => none
      | none => none
    else none
  | [] => none

/-- `Video._extract_quality_from_url`: the three quality patterns in order,
else `"default"`. -/
def extractQualityFromUrl (url : List Char) : List Char :=
  if url.isEmpty then strL "default"
  else
    match searchPat matchQ1At url with
    | some ds => ds ++ ['p']
    | none =>
      match searchPat matchQ2At url with
      | some ds => ds ++ ['p']
      | none =>
        match searchPat matchQ3At url with
        | some ds => ds ++ ['p']
        | none => strL "default"

/-! ### `Video.load`: fetch, validate, error protocol -/

/-- Outcome of one HTTP GET as seen by `Video.load`: a status/body response,
or a transport-level exception (`aiohttp.ClientError`). -/
inductive FetchOutcome where
  | ok (status : Nat) (body : List Char)
  | exn (msg : List Char)
deriving DecidableEq

/-- Result of `Video.load`. -/
inductive LoadResult where
  | success (body : List Char)
  | notFound
  | networkError (msg : List Char)
deriving DecidableEq

/-- The positive content signatures (`video_indicators`). -/
def videoIndicators : List (List Char) :=
  [strL "<video", strL "video_url", strL "sources", strL "og:video",
   strL "player", strL "video-player", strL "video_player",
   strL "kt_player", strL "flashvars", strL ".mp4", strL "video/mp4",
   strL "uploadDate", strL "duration"]

/-- `is_video_page`: some indicator occurs case-insensitively in the body. -/
def isVideoPage (body : List Char) : Bool :=
  videoIndicators.any (fun ind => hasSubCI ind body)

/-- A 200 body passes validation: no negative signature, at least 1000
characters, and either a positive indicator or more than 5000 characters. -/
def acceptsBody (body : List Char) : Bool :=
  !hasSub (strL "Video not found") body &&
  !(hasSub (strL "<title>404") body || hasSub (strL "Page not found") body) &&
  decide (1000 ≤ body.length) &&
  (isVideoPage body || decide (5000 < body.length))

/-- A fetch outcome is accepted exactly when it is a 200 response whose body
passes validation. -/
def accepts (o : FetchOutcome) : Bool :=
  match o with
  | .ok status body => status == 200 && acceptsBody body
  | .exn _ => false

/-- The candidate loop of `Video.load`: try candidates in order, recording
only transport exceptions in `last_error`; rejected statuses and rejected
bodies just continue. -/
def loadLoop (fetch : List Char → FetchOutcome) :
    List (List Char) → Option (List Char) → LoadResult
  | [], some e => .networkError e
  | [], none => .notFound
  | u :: rest, lastErr =>
    match fetch u with
    | .exn e => loadLoop fetch rest (some e)
    | .ok status body =>
      if status == 404 then loadLoop fetch rest lastErr
      else if status != 200 then loadLoop fetch rest lastErr
      else if hasSub (strL "Video not found") body then loadLoop fetch rest lastErr
      else if hasSub (strL "<title>404") body || hasSub (strL "Page not found") body then
        loadLoop fetch rest lastErr
      else if body.length < 1000 then loadLoop fetch rest lastErr
      else if isVideoPage body || decide (5000 < body.length) then .success body
      else loadLoop fetch rest lastErr

/-- `Video.load` on a candidate list. -/
def loadVideo (fetch : List Char → FetchOutcome) (variants : List (List Char)) : LoadResult :=
  loadLoop fetch variants none

/-- The last transport exception raised while scanning the candidates. -/
def lastExn (fetch : List Char → FetchOutcome) (vs : List (List Char)) : Option (List Char) :=
  (vs.filterMap (fun u =>
    match fetch u with
    | .exn e => some e
    | .ok _ _ => none)).getLast?

/-- Discriminator for the `NetworkError` outcome. -/
def isNetworkErrorB : LoadResult → Bool
  | .networkError _ => true
  | _ => false

/-- Every candidate was answered with the given HTTP status. -/
def allStatusesAre (fetch : List Char → FetchOutcome) (st : Nat) (vs : List (List Char)) : Bool :=
  vs.all (fun u =>
    match fetch u with
    | .ok s _ => s == st
    | .exn _ => false)

/-! ### `re.findall`-style scanners used by `_parse_quality_urls` -/

/-- Non-overlapping leftmost `findall`: the matcher returns the captured
value and the rest of the input after the match.  Every matcher used here
consumes at least one character, so a fuel equal to the input length is
sufficient. -/
def findAllAux {α : Type} (m : List Char → Option (α × List Char)) :
    Nat → List Char → List α
  | 0, _ => []
  | _ + 1, [] => []
  | fuel + 1, c :: rest =>
    match m (c :: rest) with
    | some (x, after) => x :: findAllAux m fuel after
    | none => findAllAux m fuel rest

/-- `re.findall` over a whole string, see `findAllAux`. -/
def findAll {α : Type} (m : List Char → Option (α × List Char)) (l : List Char) : List α :=
  findAllAux m l.length l

/-- `https?://[^X]+\.mp4[^X]*` at one position for an exclusion class `X`:
the greedy classes make the match run from the scheme to the end of the
non-excluded run, provided `.mp4` occurs at offset one or later in that
run. -/
def matchHttpMp4At (excl : Char → Bool) (l : List Char) : Option (List Char × List Char) :=
  let scheme :=
    if (strL "https://").isPrefixOf l then some 8
    else if (strL "http://").isPrefixOf l then some 7
    else none
  match scheme with
  | none => none
  | some n =>
    let run := (l.drop n).takeWhile (fun c => !excl c)
    if hasSub (strL ".mp4") (run.drop 1) then
      some (l.take (n + run.length), l.drop (n + run.length))
    else none

/-- `kt_player\s*\([^)]+\)` at one position, returning the whole matched
text (the later URL findall runs over it). -/
def matchKtPlayerAt (l : List Char) : Option (List Char) :=
  if (strL "kt_player").isPrefixOf l then
    let r0 := l.drop 9
    let ws := r0.takeWhile isPySpace
    match r0.drop ws.length with
    | '(' :: r1 =>
      let body := r1.takeWhile (· != ')')
      if body.isEmpty then none
      else
        match r1.drop body.length with
        | ')' :: _ => some (l.take (9 + ws.length + 1 + body.length + 1))
        | _ => none
    | _ => none
  else none

/-- `<source[^>]+src=["\']([^"\']+)["\'][^>]*(?:label=["\']([^"\']+)["\'])?`
at one position (case-insensitive).  The greedy `[^>]+` picks the rightmost
workable `src=`; the trailing optional `label` group can never participate,
because the greedy `[^>]*` before it always runs to a `>` or to the end of
the input, where `label=` cannot start — so the code's `match[1]` is always
empty and the quality always comes from the URL. -/
def matchSourceTagAt (l : List Char) : Option (List Char × List Char) :=
  if isPreCI (strL "<source") l then
    let r0 := l.drop 7
    let run1 := r0.takeWhile (· != '>')
    let cand := (List.range run1.length).reverse.findSome? (fun km1 =>
      let r1 := r0.drop (km1 + 1)
      if isPreCI (strL "src=") r1 then
        match r1.drop 4 with
        | q :: r2 =>
          if isQuote q then
            let v := r2.takeWhile (fun c => !isQuote c)
            if v.isEmpty then none
            else
              match r2.drop v.length with
              | q2 :: r3 => if isQuote q2 then some (v, r3) else none
              | [] => none
          else none
        | [] => none
      else none)
    match cand with
    | some (v, r3) =>
      let run2 := r3.takeWhile (· != '>')
      some (v, r3.drop run2.length)
    | none => none
  else none

/-- The tail `\s*[:=]\s*["\']([^"\']+)["\']` shared by several value
patterns. -/
def matchKVTail (l : List Char) : Option (List Char) :=
  match l.dropWhile isPySpace with
  | c :: r2 =>
    if c == ':' || c == '=' then
      match r2.dropWhile isPySpace with
      | q :: r4 =>
        if isQuote q then
          let v := r4.takeWhile (fun c => !isQuote c)
          if v.isEmpty then none
          else
            match r4.drop v.length with
            | _ :: _ => some v
            | [] => none
        else none
      | [] => none
    else none
  | [] => none

/-- `["\']?` followed by `matchKVTail`: consuming the optional quote first
is harmless, since a quote can never start the tail. -/
def matchQValueAt (l : List Char) : Option (List Char) :=
  match l with
  | q :: r => if isQuote q then matchKVTail r else matchKVTail (q :: r)
  | [] => none

/-- One quality-specific pattern, e.g. `(?:720p?|720)["\']?\s*[:=]\s*
["\']([^"\']+)["\']` (case-insensitive), with its ordered alternatives. -/
def matchQualityKeyAt (alts : List (List Char)) (l : List Char) : Option (List Char) :=
  alts.findSome? (fun a => if isPreCI a l then matchQValueAt (l.drop a.length) else none)

/-! ### Pass 1: the flashvars block -/

/-- The closing-brace character (codepoint 125). -/
def rbrace : Char :=
  Char.ofNat 125

/-- `flashvars\s*=\s*\{([^}]+)\}` at one position, returning the captured
block body. -/
def matchFlashvarsAt (l : List Char) : Option (List Char) :=
  if (strL "flashvars").isPrefixOf l then
    match (l.drop 9).dropWhile isPySpace with
    | '=' :: r2 =>
      match r2.dropWhile isPySpace with
      | b :: r4 =>
        if b == lbrace then
          let body := r4.takeWhile (· != rbrace)
          if body.isEmpty then none
          else
            match r4.drop body.length with
            | _ :: _ => some body
            | [] => none
        else none
      | [] => none
    | _ => none
  else none

/-- `re.search(r'flashvars\s*=\s*\{([^}]+)\}', content)`. -/
def searchFlashvars (content : List Char) : Option (List Char) :=
  searchPat matchFlashvarsAt content

/-- `key\s*:\s*['\"]([^'\"]+)['\"]` at one position (case-sensitive). -/
def matchKeyQuotedAt (key l : List Char) : Option (List Char) :=
  if key.isPrefixOf l then
    match (l.drop key.length).dropWhile isPySpace with
    | ':' :: r2 =>
      match r2.dropWhile isPySpace with
      | q :: r4 =>
        if isQuote q then
          let v := r4.takeWhile (fun c => !isQuote c)
          if v.isEmpty then none
          else
            match r4.drop v.length with
            | _ :: _ => some v
            | [] => none
        else none
      | [] => none
    | _ => none
  else none

/-- `re.search` of the quoted-value pattern for a given key. -/
def searchKeyQuoted (key content : List Char) : Option (List Char) :=
  searchPat (matchKeyQuotedAt key) content

/-- The ordered quality writes produced by the flashvars pass
(`video_url`/`video_url_text` and the three alternates). -/
def flashvarsWrites (content : List Char) : List (List Char × List Char) :=
  match searchFlashvars content with
  | none => []
  | some fv =>
    let mainW :=
      match searchKeyQuoted (strL "video_url") fv with
      | some u =>
        let cu := cleanVideoUrl u
        if cu.isEmpty then []
        else
          let q := pyStrip (match searchKeyQuoted (strL "video_url_text") fv with
            | some t => t
            | none => strL "default")
          [(q, cu)]
      | none => []
    let altW := fun (ukey tkey : List Char) =>
      match searchKeyQuoted ukey fv with
      | some u =>
        let cu := cleanVideoUrl u
        if cu.isEmpty then []
        else
          let q := match searchKeyQuoted tkey fv with
            | some t => pyStrip t
            | none => strL "alt"
          [(q, cu)]
      | none => []
    mainW ++ altW (strL "video_alt_url") (strL "video_alt_url_text")
          ++ altW (strL "video_alt_url2") (strL "video_alt_url2_text")
          ++ altW (strL "video_alt_url3") (strL "video_alt_url3_text")

/-! ### Pass 2: the kt_player call -/

/-- The ordered quality writes produced by the kt_player pass. -/
def ktPlayerWrites (content : List Char) : List (List Char × List Char) :=
  match searchPat matchKtPlayerAt content with
  | none => []
  | some kt =>
    (findAll (matchHttpMp4At isQuote) kt).filterMap (fun u =>
      let cu := cleanVideoUrl u
      if cu.isEmpty then none else some (extractQualityFromUrl cu, cu))

/-! ### Pass 3: the JSON-like sources block -/

/-- The tail `\s*:\s*(\[[^\]]+\])` of the two sources patterns, returning
the captured bracketed text. -/
def matchSourcesTail (l : List Char) : Option (List Char) :=
  match l.dropWhile isPySpace with
  | ':' :: r2 =>
    match r2.dropWhile isPySpace with
    | '[' :: r4 =>
      let body := r4.takeWhile (· != ']')
      if body.isEmpty then none
      else
        match r4.drop body.length with
        | _ :: _ => some ('[' :: (body ++ [']']))
        | [] => none
    | _ => none
  | _ => none

/-- `sources\s*:\s*(\[[^\]]+\])` at one position (case-sensitive). -/
def matchSources1At (l : List Char) : Option (List Char) :=
  if (strL "sources").isPrefixOf l then matchSourcesTail (l.drop 7) else none

/-- `"sources"\s*:\s*(\[[^\]]+\])` at one position. -/
def matchSources2At (l : List Char) : Option (List Char) :=
  match l with
  | q1 :: rest =>
    if q1 == dquote && (strL "sources").isPrefixOf rest then
      match rest.drop 7 with
      | q2 :: r2 => if q2 == dquote then matchSourcesTail r2 else none
      | [] => none
    else none
  | [] => none

/-- `re.sub(r"'([^']*)'", r'"\1"', json_str)`: rewrite single-quoted spans
to double-quoted ones, left to right. -/
def quoteSubAux : Nat → List Char → List Char
  | 0, l => l
  | _ + 1, [] => []
  | fuel + 1, c :: rest =>
    if c == squote then
      let inner := rest.takeWhile (· != squote)
      match rest.drop inner.length with
      | _ :: after => dquote :: (inner ++ dquote :: quoteSubAux fuel after)
      | [] => c :: quoteSubAux fuel rest
    else c :: quoteSubAux fuel rest

/-- `re.sub(r"'([^']*)'", r'"\1"', json_str)`, see `quoteSubAux`. -/
def quoteSub (l : List Char) : List Char :=
  quoteSubAux l.length l

/-- A JSON value as `json.loads` produces it; numbers keep their source
text (exact for the integers this site emits). -/
inductive JVal where
  | jnull
  | jbool (b : Bool)
  | jnum (s : List Char)
  | jstr (s : List Char)
  | jarr (xs : List JVal)
  | jobj (fs : List (List Char × JVal))

/-- Hexadecimal digit value. -/
def hexVal (c : Char) : Option Nat :=
  if isAsciiDigit c then some (c.toNat - 48)
  else
    let lc := asciiLower c
    if 'a' ≤ lc && lc ≤ 'f' then some (lc.toNat - 87) else none

/-- JSON whitespace. -/
def skipJWs (l : List Char) : List Char :=
  l.dropWhile (fun c => c == ' ' || c == '\t' || c == '\n' || c == '\r')

/-- JSON string body after the opening quote (strict mode: raw control
characters and unknown escapes are rejected). -/
def parseJStringBody : Nat → List Char → Option (List Char × List Char)
  | 0, _ => none
  | _ + 1, [] => none
  | fuel + 1, c :: rest =>
    if c == dquote then some ([], rest)
    else if c == '\\' then
      match rest with
      | e :: r2 =>
        let esc : Option (Char × List Char) :=
          if e == dquote then some (dquote, r2)
          else if e == '\\' then some ('\\', r2)
          else if e == '/' then some ('/', r2)
          else if e == 'b' then some (Char.ofNat 8, r2)
          else if e == 'f' then some (Char.ofNat 12, r2)
          else if e == 'n' then some ('\n', r2)
          else if e == 'r' then some ('\r', r2)
          else if e == 't' then some ('\t', r2)
          else if e == 'u' then
            match r2 with
            | h1 :: h2 :: h3 :: h4 :: r3 =>
              match hexVal h1, hexVal h2, hexVal h3, hexVal h4 with
              | some a, some b, some c2, some d =>
                some (Char.ofNat (((a * 16 + b) * 16 + c2) * 16 + d), r3)
              | _, _, _, _ => none
            | _ => none
          else none
        match esc with
        | some (ch, r3) => (parseJStringBody fuel r3).map (fun p => (ch :: p.1, p.2))
        | none => none
      | [] => none
    else if c.toNat < 32 then none
    else (parseJStringBody fuel rest).map (fun p => (c :: p.1, p.2))

/-- JSON number: `-?(0|[1-9]\d*)(\.\d+)?([eE][+-]?\d+)?`, kept as text. -/
def parseJNum (l : List Char) : Option (List Char × List Char) :=
  let (sgn, r1) : List Char × List Char :=
    match l with
    | '-' :: r => (['-'], r)
    | _ => ([], l)
  match r1 with
  | '0' :: d :: _ =>
    if isAsciiDigit d then none else some (sgn ++ ['0'], r1.drop 1)
  | '0' :: r2 => some (sgn ++ ['0'], r2)
  | c :: _ =>
    if isAsciiDigit c then
      let ds := takeDigits r1
      some (sgn ++ ds, r1.drop ds.length)
    else none
  | [] => none

/-- Optional fraction and exponent parts of a JSON number. -/
def parseJNumTail (l : List Char) : Option (List Char × List Char) :=
  let (frac, r1) : List Char × List Char :=
    match l with
    | '.' :: r =>
      let ds := takeDigits r
      if ds.isEmpty then (strL "!", l) else ('.' :: ds, r.drop ds.length)
    | _ => ([], l)
  if frac = strL "!" then none
  else
    match r1 with
    | e :: r2 =>
      if e == 'e' || e == 'E' then
        let (sg, r3) : List Char × List Char :=
          match r2 with
          | '+' :: r => (['+'], r)
          | '-' :: r => (['-'], r)
          | _ => ([], r2)
        let ds := takeDigits r3
        if ds.isEmpty then none else some (frac ++ e :: (sg ++ ds), r3.drop ds.length)
      else some (frac, r1)
    | [] => some (frac, r1)

mutual

/-- Strict JSON value parser (fuel-driven). -/
def parseJVal : Nat → List Char → Option (JVal × List Char)
  | 0, _ => none
  | fuel + 1, l =>
    match skipJWs l with
    | [] => none
    | c :: rest =>
      if c == dquote then
        (parseJStringBody (fuel + 1) rest).map (fun p => (JVal.jstr p.1, p.2))
      else if c == '[' then
        match skipJWs rest with
        | ']' :: r2 => some (.jarr [], r2)
        | _ => (parseJArrItems fuel rest).map (fun p => (JVal.jarr p.1, p.2))
      else if c == lbrace then
        match skipJWs rest with
        | b :: r2 =>
          if b == rbrace then some (.jobj [], r2)
          else (parseJObjItems fuel rest).map (fun p => (JVal.jobj p.1, p.2))
        | [] => none
      else if c == 't' then
        if (strL "rue").isPrefixOf rest then some (.jbool true, rest.drop 3) else none
      else if c == 'f' then
        if (strL "alse").isPrefixOf rest then some (.jbool false, rest.drop 4) else none
      else if c == 'n' then
        if (strL "ull").isPrefixOf rest then some (.jnull, rest.drop 3) else none
      else
        match parseJNum (c :: rest) with
        | some (intPart, r2) =>
          match parseJNumTail r2 with
          | some (tailPart, r3) => some (.jnum (intPart ++ tailPart), r3)
          | none => none
        | none => none

/-- Comma-separated array items up to `]`. -/
def parseJArrItems : Nat → List Char → Option (List JVal × List Char)
  | 0, _ => none
  | fuel + 1, l =>
    match parseJVal fuel l with
    | some (v, r1) =>
      match skipJWs r1 with
      | ',' :: r2 => (parseJArrItems fuel r2).map (fun p => (v :: p.1, p.2))
      | ']' :: r2 => some ([v], r2)
      | _ => none
    | none => none

/-- Comma-separated object members up to the closing brace. -/
def parseJObjItems : Nat → List Char → Option (List (List Char × JVal) × List Char)
  | 0, _ => none
  | fuel + 1, l =>
    match skipJWs l with
    | q :: r1 =>
      if q == dquote then
        match parseJStringBody (fuel + 1) r1 with
        | some (k, r2) =>
          match skipJWs r2 with
          | ':' :: r3 =>
            match parseJVal fuel r3 with
            | some (v, r4) =>
              match skipJWs r4 with
              | ',' :: r5 => (parseJObjItems fuel r5).map (fun p => ((k, v) :: p.1, p.2))
              | b :: r5 => if b == rbrace then some ([(k, v)], r5) else none
              | [] => none
            | none => none
          | _ => none
        | none => none
      else none
    | [] => none

end

/-- `json.loads`: parse one value and require only whitespace after it. -/
def jsonLoads (s : List Char) : Option JVal :=
  match parseJVal (2 * s.length + 4) s with
  | some (v, rest) => if (skipJWs rest).isEmpty then some v else none
  | none => none

/-- Dictionary read on a parsed object (later duplicate keys win, as in the
dict `json.loads` builds). -/
def jGet (fs : List (List Char × JVal)) (k : List Char) : Option JVal :=
  ((fs.filter (fun f => f.1 == k)).getLast?).map Prod.snd

/-- `d.get(k, default)`. -/
def jGetD (fs : List (List Char × JVal)) (k : List Char) (d : JVal) : JVal :=
  (jGet fs k).getD d

/-- Whether a JSON number text denotes zero (every mantissa digit is 0). -/
def jNumIsZero (s : List Char) : Bool :=
  ((s.takeWhile (fun c => c != 'e' && c != 'E')).filter isAsciiDigit).all (· == '0')

/-- Python truthiness of a JSON value. -/
def jTruthy : JVal → Bool
  | .jnull => false
  | .jbool b => b
  | .jnum s => !jNumIsZero s
  | .jstr s => !s.isEmpty
  | .jarr xs => !xs.isEmpty
  | .jobj fs => !fs.isEmpty

mutual

/-- Python `repr` of a JSON value (escape differences inside nested strings
are beyond what the site's data ever exercises). -/
def jRepr : JVal → List Char
  | .jnull => strL "None"
  | .jbool true => strL "True"
  | .jbool false => strL "False"
  | .jnum s => s
  | .jstr s => squote :: (s ++ [squote])
  | .jarr xs => '[' :: (jReprList xs ++ [']'])
  | .jobj fs => lbrace :: (jReprFields fs ++ [rbrace])

/-- Comma-joined `repr` of array elements. -/
def jReprList : List JVal → List Char
  | [] => []
  | [x] => jRepr x
  | x :: y :: rest => jRepr x ++ strL ", " ++ jReprList (y :: rest)

/-- Comma-joined `repr` of object members. -/
def jReprFields : List (List Char × JVal) → List Char
  | [] => []
  | [f] => squote :: (f.1 ++ squote :: (strL ": " ++ jRepr f.2))
  | f :: g :: rest =>
    squote :: (f.1 ++ squote :: (strL ": " ++ jRepr f.2)) ++ strL ", " ++ jReprFields (g :: rest)

end

/-- Python `str(label)`: identity on strings, `repr` otherwise. -/
def jStrOf (v : JVal) : List Char :=
  match v with
  | .jstr s => s
  | _ => jRepr v

/-- The per-source loop of the JSON pass.  Writes are unconditional
(`self._quality_urls[quality] = src`); a truthy non-string `src` raises
inside `_clean_video_url`, which the surrounding `except` swallows,
aborting the rest of the loop but keeping the writes already made. -/
def procSources : List JVal → QMap → QMap
  | [], m => m
  | s :: rest, m =>
    match s with
    | .jobj fs =>
      let label := jGetD fs (strL "label") (jGetD fs (strL "quality") (jGetD fs (strL "res") (.jstr [])))
      let src := jGetD fs (strL "src") (jGetD fs (strL "file") (jGetD fs (strL "url") (.jstr [])))
      if jTruthy src then
        match src with
        | .jstr srcS =>
          let cu := cleanVideoUrl srcS
          if cu.isEmpty then procSources rest m
          else
            let q := if jTruthy label then jStrOf label else extractQualityFromUrl cu
            procSources rest (dictSet m q cu)
        | _ => m
      else procSources rest m
    | .jstr srcS =>
      let cu := cleanVideoUrl srcS
      if cu.isEmpty then procSources rest m
      else procSources rest (dictSet m (extractQualityFromUrl cu) cu)
    | _ => procSources rest m

/-- Pass 3: both sources patterns in order, each quote-substituted, parsed,
and folded into the map when parsing succeeds. -/
def pass3Apply (content : List Char) (m : QMap) : QMap :=
  let step := fun (mtch : Option (List Char)) (m : QMap) =>
    match mtch with
    | some cap =>
      match jsonLoads (quoteSub cap) with
      | some (.jarr xs) => procSources xs m
      | some _ => m
      | none => m
    | none => m
  step (searchPat matchSources2At content) (step (searchPat matchSources1At content) m)

/-! ### Pass 4: HTML5 source tags -/

/-- The ordered quality writes produced by the source-tag pass. -/
def sourceTagWrites (content : List Char) : List (List Char × List Char) :=
  (findAll matchSourceTagAt content).filterMap (fun url =>
    if !url.isEmpty && hasSub (strL ".mp4") url then
      let cu := cleanVideoUrl url
      if cu.isEmpty then none else some (extractQualityFromUrl cu, cu)
    else none)

/-! ### Pass 5: the five quality-specific patterns -/

/-- The `(REGEX_VIDEO_SOURCE_2160, "2160p")` … `("360p")` table. -/
def qualityPatternList : List (List (List Char) × List Char) :=
  [([strL "2160p", strL "2160", strL "4k"], strL "2160p"),
   ([strL "1080p", strL "1080"], strL "1080p"),
   ([strL "720p", strL "720"], strL "720p"),
   ([strL "480p", strL "480"], strL "480p"),
   ([strL "360p", strL "360"], strL "360p")]

/-- One step of pass 5: only when the label is not yet present, search
its pattern and store the cleaned capture. -/
def pass5Write (content : List Char) (m : QMap) (p : List (List Char) × List Char) : QMap :=
  if (dlookup m p.2).isSome then m
  else
    match searchPat (matchQualityKeyAt p.1) content with
    | some u =>
      if (cleanVideoUrl u).isEmpty then m else dictSet m p.2 (cleanVideoUrl u)
    | none => m

/-- Pass 5: the guarded per-quality writes, in resolution order. -/
def pass5Apply (content : List Char) (m : QMap) : QMap :=
  qualityPatternList.foldl (pass5Write content) m

/-! ### Pass 6: the blanket `.mp4` scan -/

/-- The exclusion class `["\'\s<>]` of the blanket scan. -/
def mp4ScanExcl (c : Char) : Bool :=
  isQuote c || isPySpace c || c == '<' || c == '>'

/-- The inner loop of pass 6: URL de-duplication and a first-writer guard
per extracted label. -/
def pass6Go : List (List Char) → List (List Char) → QMap → QMap
  | [], _, m => m
  | u :: rest, seen, m =>
    let cu := cleanVideoUrl u
    if !cu.isEmpty && !seen.contains cu then
      let q := extractQualityFromUrl cu
      let m2 := if (dlookup m q).isSome then m else dictSet m q cu
      pass6Go rest (cu :: seen) m2
    else pass6Go rest seen m

/-- Pass 6, run only on a still-empty map. -/
def pass6Apply (content : List Char) (m : QMap) : QMap :=
  if !m.isEmpty then m
  else pass6Go (findAll (matchHttpMp4At mp4ScanExcl) content) [] m

/-! ### Pass 7: the three generic source regexes -/

/-- `<source[^>]+src="([^"]+)"[^>]*type="video/mp4"` at one position
(case-insensitive): rightmost workable `src="`, maximal quoted capture,
then the `type` literal somewhere in the following `>`-free run. -/
def matchVideoSourceAt (l : List Char) : Option (List Char) :=
  if isPreCI (strL "<source") l then
    let r0 := l.drop 7
    let run1 := r0.takeWhile (· != '>')
    (List.range run1.length).reverse.findSome? (fun km1 =>
      let r1 := r0.drop (km1 + 1)
      if isPreCI (strL "src=") r1 then
        match r1.drop 4 with
        | q :: r2 =>
          if q == dquote then
            let v := r2.takeWhile (· != dquote)
            if v.isEmpty then none
            else
              match r2.drop v.length with
              | _ :: r3 =>
                let run2 := r3.takeWhile (· != '>')
                if hasSubCI (strL "type=" ++ dquote :: (strL "video/mp4" ++ [dquote])) run2 then
                  some v
                else none
              | [] => none
          else none
        | [] => none
      else none)
  else none

/-- `video_url\s*[:=]\s*["\']([^"\']+)["\']` at one position
(case-insensitive). -/
def matchVideoUrlAltAt (l : List Char) : Option (List Char) :=
  if isPreCI (strL "video_url") l then matchKVTail (l.drop 9) else none

/-- `<source[^>]+src="([^"]+\.mp4[^"]*)"` at one position
(case-insensitive): the greedy classes capture the whole quoted value,
provided `.mp4` occurs at offset one or later in it. -/
def matchVideoSourceGenericAt (l : List Char) : Option (List Char) :=
  if isPreCI (strL "<source") l then
    let r0 := l.drop 7
    let run1 := r0.takeWhile (· != '>')
    (List.range run1.length).reverse.findSome? (fun km1 =>
      let r1 := r0.drop (km1 + 1)
      if isPreCI (strL "src=") r1 then
        match r1.drop 4 with
        | q :: r2 =>
          if q == dquote then
            let v := r2.takeWhile (· != dquote)
            if hasSubCI (strL ".mp4") (v.drop 1) then
              match r2.drop v.length with
              | _ :: _ => some v
              | [] => none
            else none
          else none
        | [] => none
      else none)
  else none

/-- Pass 7, run only on a still-empty map: the three generic regexes in
order, each storing under `"default"`. -/
def pass7Apply (content : List Char) (m : QMap) : QMap :=
  if !m.isEmpty then m
  else
    match searchPat matchVideoSourceAt content with
    | some u =>
      let cu := cleanVideoUrl u
      if cu.isEmpty then m else dictSet m (strL "default") cu
    | none =>
      match searchPat matchVideoUrlAltAt content with
      | some u =>
        let cu := cleanVideoUrl u
        if cu.isEmpty then m else dictSet m (strL "default") cu
      | none =>
        match searchPat matchVideoSourceGenericAt content with
        | some u =>
          let cu := cleanVideoUrl u
          if cu.isEmpty then m else dictSet m (strL "default") cu
        | none => m

/-! ### The full `Video._parse_quality_urls` pipeline -/

/-- Apply a list of unconditional dictionary writes in order. -/
def applyWrites (m : QMap) (ws : List (List Char × List Char)) : QMap :=
  ws.foldl (fun m w => dictSet m w.1 w.2) m

/-- The map after pass 1 (flashvars). -/
def qmapPass1 (content : List Char) : QMap :=
  applyWrites [] (flashvarsWrites content)

/-- The map after pass 2 (kt_player). -/
def qmapThrough2 (content : List Char) : QMap :=
  applyWrites (qmapPass1 content) (ktPlayerWrites content)

/-- The map after pass 3 (JSON sources). -/
def qmapThrough3 (content : List Char) : QMap :=
  pass3Apply content (qmapThrough2 content)

/-- The map after pass 4 (HTML5 source tags). -/
def qmapThrough4 (content : List Char) : QMap :=
  applyWrites (qmapThrough3 content) (sourceTagWrites content)

/-- `Video._parse_quality_urls`: all seven passes in order. -/
def parseQualityUrls (content : List Char) : QMap :=
  pass7Apply content (pass6Apply content (pass5Apply content (qmapThrough4 content)))

/-! ### Listing extraction (`Client.search`, `Client.get_videos_by_tag`,
`Client.get_videos_by_category`) -/

/-- One listing entry as the client builds it. -/
structure SEntry where
  videoId : List Char
  url : List Char
  fullPath : List Char
  slug : Option (List Char)
deriving DecidableEq

/-- The `/videos?/(\d+)/(<slug>)<close>` core shared by the listing link
patterns (case-insensitive `video`), parameterised by the slug's excluded
characters and the accepted closing character.  Returns
`((path, id, slug), rest-after-closing)`. -/
def matchIdSlugPath (slugExcl : Char → Bool) (closeOk : Char → Bool) (l : List Char) :
    Option ((List Char × List Char × List Char) × List Char) :=
  match l with
  | c0 :: r2 =>
    if c0 == '/' && isPreCI (strL "video") r2 then
      let r3 := r2.drop 5
      let sLen : Option Nat :=
        match r3 with
        | s :: '/' :: _ => if asciiLower s = 's' then some 1 else if s = '/' then some 0 else none
        | '/' :: _ => some 0
        | _ => none
      match sLen with
      | none => none
      | some k =>
        match r3.drop (k + 1) with
        | r4 =>
          let ds := takeDigits r4
          if ds.isEmpty then none
          else
            match r4.drop ds.length with
            | '/' :: r5 =>
              let slug := r5.takeWhile (fun c => !slugExcl c)
              if slug.isEmpty then none
              else
                match r5.drop slug.length with
                | c :: rest =>
                  if closeOk c then
                    some ((l.take (1 + 5 + k + 1 + ds.length + 1 + slug.length), ds, slug), rest)
                  else none
                | [] => none
            | _ => none
  else none
  | [] => none

/-- Search pattern 1, `href=["\'](/videos?/(\d+)/([^"\']+))["\']`
(case-insensitive), at one position. -/
def matchSearchP1At (l : List Char) :
    Option ((List Char × List Char × List Char) × List Char) :=
  if isPreCI (strL "href=") l then
    match l.drop 5 with
    | q :: r1 =>
      if isQuote q then matchIdSlugPath isQuote isQuote r1 else none
    | [] => none
  else none

/-- Search pattern 2, the same with an optional absolute
`(?:https?://[^/]+)?` prefix; the greedy host run ends exactly where the
captured path must begin. -/
def matchSearchP2At (l : List Char) :
    Option ((List Char × List Char × List Char) × List Char) :=
  if isPreCI (strL "href=") l then
    match l.drop 5 with
    | q :: r1 =>
      if isQuote q then
        let abs :=
          let n :=
            if isPreCI (strL "https://") r1 then some 8
            else if isPreCI (strL "http://") r1 then some 7
            else none
          match n with
          | some k =>
            let host := (r1.drop k).takeWhile (· != '/')
            if host.isEmpty then none
            else matchIdSlugPath isQuote isQuote ((r1.drop k).drop host.length)
          | none => none
        match abs with
        | some res => some res
        | none => matchIdSlugPath isQuote isQuote r1
      else none
    | [] => none
  else none

/-- The `/videos?/<digits>/` core (case-insensitive), returning the digits
and the consumed length. -/
def matchInnerPathCI (l : List Char) : Option (List Char × Nat) :=
  match l with
  | c0 :: r2 =>
    if c0 == '/' && isPreCI (strL "video") r2 then
      let r3 := r2.drop 5
      let sLen : Option Nat :=
        match r3 with
        | s :: '/' :: _ => if asciiLower s = 's' then some 1 else if s = '/' then some 0 else none
        | '/' :: _ => some 0
        | _ => none
      match sLen with
      | none => none
      | some k =>
        let r4 := r3.drop (k + 1)
        let ds := takeDigits r4
        if ds.isEmpty then none
        else
          match r4.drop ds.length with
          | '/' :: _ => some (ds, 1 + 5 + k + 1 + ds.length + 1)
          | _ => none
    else none
  | [] => none

/-- The lazy `[^"\']*?` prefix of the thumb pattern: the shortest quote-free
prefix after which the `/videos?/<digits>/` core matches.  Returns the
prefix length and the core's digits and consumed length. -/
def findLazyPath : List Char → Option (Nat × List Char × Nat)
  | [] => none
  | c :: rest =>
    match matchInnerPathCI (c :: rest) with
    | some (ds, n) => some (0, ds, n)
    | none =>
      if isQuote c then none
      else
        (findLazyPath rest).map (fun p => (p.1 + 1, p.2.1, p.2.2))

/-- The thumb fallback pattern
`<a[^>]+href=["\']([^"\']*?/videos?/(\d+)/[^"\']*)["\'][^>]*>` at one
position: greedy `[^>]+` (rightmost workable `href=`), lazy path prefix,
greedy value tail, closing quote, and a later `>`. -/
def matchThumbAt (l : List Char) : Option ((List Char × List Char) × List Char) :=
  if isPreCI (strL "<a") l then
    let r0 := l.drop 2
    let run1 := r0.takeWhile (· != '>')
    (List.range run1.length).reverse.findSome? (fun km1 =>
      let r1 := r0.drop (km1 + 1)
      if isPreCI (strL "href=") r1 then
        match r1.drop 5 with
        | q :: r2 =>
          if isQuote q then
            match findLazyPath r2 with
            | some (pfx, ds, n) =>
              let tail := (r2.drop (pfx + n)).takeWhile (fun c => !isQuote c)
              let capLen := pfx + n + tail.length
              match r2.drop capLen with
              | q2 :: r3 =>
                if isQuote q2 then
                  let run2 := r3.takeWhile (· != '>')
                  match r3.drop run2.length with
                  | _ :: rest => some ((r2.take capLen, ds), rest)
                  | [] => none
                else none
              | [] => none
            | none => none
          else none
        | [] => none
      else none)
  else none

/-- `re.search(r'/videos?/\d+/[^"\']*', full_path)` (case-sensitive), used
to cut the path out of an absolute thumb link. -/
def matchPathAt (l : List Char) : Option (List Char) :=
  match l with
  | '/' :: 'v' :: 'i' :: 'd' :: 'e' :: 'o' :: r3 =>
    let sLen : Option Nat :=
      match r3 with
      | 's' :: '/' :: _ => some 1
      | '/' :: _ => some 0
      | _ => none
    match sLen with
    | none => none
    | some k =>
      let r4 := r3.drop (k + 1)
      let ds := takeDigits r4
      if ds.isEmpty then none
      else
        match r4.drop ds.length with
        | '/' :: r5 =>
          let tail := r5.takeWhile (fun c => !isQuote c)
          some (l.take (1 + 5 + k + 1 + ds.length + 1 + tail.length))
        | _ => none
  | _ => none

/-- The id-only fallback pattern `/videos?/(\d+)(?:/|["\'])`
(case-insensitive) at one position; the terminator is part of the match. -/
def matchIdOnlyAt (l : List Char) : Option (List Char × List Char) :=
  match l with
  | c0 :: r2 =>
    if c0 == '/' && isPreCI (strL "video") r2 then
      let r3 := r2.drop 5
      let sLen : Option Nat :=
        match r3 with
        | s :: '/' :: _ => if asciiLower s = 's' then some 1 else if s = '/' then some 0 else none
        | '/' :: _ => some 0
        | _ => none
      match sLen with
      | none => none
      | some k =>
        let r4 := r3.drop (k + 1)
        let ds := takeDigits r4
        if ds.isEmpty then none
        else
          match r4.drop ds.length with
          | c :: rest =>
            if c == '/' || isQuote c then some (ds, rest) else none
          | [] => none
    else none
  | [] => none

/-- The `/videos/` prefix normalization of the slug-link loops. -/
def normPrefixPath (path : List Char) : List Char :=
  if (strL "/videos/").isPrefixOf path then
    replaceFirst (strL "/videos/") (strL "/video/") path
  else path

/-- Append a trailing slash unless one is already present. -/
def ensureSlash (p : List Char) : List Char :=
  if p.getLast? == some '/' then p else p ++ ['/']

/-- The entry built by the full-link loops of `Client.search`. -/
def fullEntry (path vid slug : List Char) : SEntry :=
  ⟨vid, rootUrl ++ ensureSlash (normPrefixPath path), ensureSlash (normPrefixPath path),
    some (rstripSlash slug)⟩

/-- The loop body shared by the two full-link patterns of `Client.search`:
digit and de-duplication guards, `/videos/`→`/video/` prefix
normalization, and a guaranteed trailing slash. -/
def procFullMatches (maxr : Nat) :
    List (List Char × List Char × List Char) → List (List Char) → List SEntry →
    List SEntry × List (List Char)
  | [], seen, acc => (acc, seen)
  | (path, vid, slug) :: ms, seen, acc =>
    if !vid.isEmpty && vid.all isAsciiDigit && !seen.contains vid && acc.length < maxr then
      procFullMatches maxr ms (vid :: seen) (acc ++ [fullEntry path vid slug])
    else procFullMatches maxr ms seen acc

/-- The path normalization of the thumb loop: absolute links have their
path cut out (or replaced by an id-only path), then `/videos/` is
normalized anywhere in the path. -/
def thumbPath (path vid : List Char) : List Char :=
  if hasSub (strL "/videos/")
      (if (strL "http").isPrefixOf path then
        match searchPat matchPathAt path with
        | some p => p
        | none => strL "/video/" ++ vid ++ strL "/"
      else path) then
    replaceFirst (strL "/videos/") (strL "/video/")
      (if (strL "http").isPrefixOf path then
        match searchPat matchPathAt path with
        | some p => p
        | none => strL "/video/" ++ vid ++ strL "/"
      else path)
  else
    (if (strL "http").isPrefixOf path then
      match searchPat matchPathAt path with
      | some p => p
      | none => strL "/video/" ++ vid ++ strL "/"
    else path)

/-- The entry built by the thumb loop. -/
def thumbEntry (path vid : List Char) : SEntry :=
  ⟨vid, rootUrl ++ ensureSlash (thumbPath path vid), ensureSlash (thumbPath path vid), none⟩

/-- The thumb-fallback loop of `Client.search`. -/
def procThumbMatches (maxr : Nat) :
    List (List Char × List Char) → List (List Char) → List SEntry →
    List SEntry × List (List Char)
  | [], seen, acc => (acc, seen)
  | (path, vid) :: ms, seen, acc =>
    if !vid.isEmpty && vid.all isAsciiDigit && !seen.contains vid && acc.length < maxr then
      procThumbMatches maxr ms (vid :: seen) (acc ++ [thumbEntry path vid])
    else procThumbMatches maxr ms seen acc

/-- The entry built by the id-only fallback loop. -/
def idEntry (vid : List Char) : SEntry :=
  ⟨vid, rootUrl ++ strL "/video/" ++ vid ++ strL "/", strL "/video/" ++ vid ++ strL "/", none⟩

/-- The id-only fallback loop of `Client.search`. -/
def procIdMatches (maxr : Nat) :
    List (List Char) → List (List Char) → List SEntry →
    List SEntry × List (List Char)
  | [], seen, acc => (acc, seen)
  | vid :: ms, seen, acc =>
    if !vid.isEmpty && vid.all isAsciiDigit && !seen.contains vid && acc.length < maxr then
      procIdMatches maxr ms (vid :: seen) (acc ++ [idEntry vid])
    else procIdMatches maxr ms seen acc

/-- Pattern-1 matches of `Client.search` over a page body. -/
def p1Matches (html : List Char) : List (List Char × List Char × List Char) :=
  findAll matchSearchP1At html

/-- Pattern-2 matches of `Client.search`. -/
def p2Matches (html : List Char) : List (List Char × List Char × List Char) :=
  findAll matchSearchP2At html

/-- Phase 4 of `Client.search`: the id-only fallback, run only when no
earlier phase produced a result. -/
def searchPhase4 (html : List Char) (maxr : Nat) (s : List SEntry × List (List Char)) :
    List SEntry :=
  (if s.1.isEmpty then procIdMatches maxr (findAll matchIdOnlyAt html) s.2 s.1 else s).1

/-- Phase 3 of `Client.search`: the thumb fallback. -/
def searchPhase3 (html : List Char) (maxr : Nat) (s : List SEntry × List (List Char)) :
    List SEntry :=
  searchPhase4 html maxr
    (if s.1.isEmpty then procThumbMatches maxr (findAll matchThumbAt html) s.2 s.1 else s)

/-- Phase 2 of `Client.search`: the second slug-qualified pattern, run only
when the first matched nothing (`if results: break`). -/
def searchPhase2 (html : List Char) (maxr : Nat) (s : List SEntry × List (List Char)) :
    List SEntry :=
  searchPhase3 html maxr
    (if s.1.isEmpty then procFullMatches maxr (p2Matches html) s.2 s.1 else s)

/-- The result-list construction of `Client.search` (the parsing part,
after the page body has been fetched): slug-qualified patterns first
(stopping at the first pattern that produced results), then the thumb
fallback, then the id-only fallback; `seen_ids` persists throughout. -/
def searchEntries (html : List Char) (maxr : Nat) : List SEntry :=
  searchPhase2 html maxr (procFullMatches maxr (p1Matches html) [] [])

/-- The link pattern `href="(/videos?/(\d+)/([^"]+))"` (case-insensitive)
of `Client.get_videos_by_tag` / `get_videos_by_category` at one position:
double quotes only. -/
def matchTagLinkAt (l : List Char) :
    Option ((List Char × List Char × List Char) × List Char) :=
  if isPreCI (strL "href=") l then
    match l.drop 5 with
    | q :: r1 =>
      if q == dquote then matchIdSlugPath (· == dquote) (· == dquote) r1 else none
    | [] => none
  else none

/-- The entry built by the tag/category loop: the `/videos/` prefix is
normalized but no trailing slash is appended. -/
def tagEntry (path vid slug : List Char) : SEntry :=
  ⟨vid, rootUrl ++ normPrefixPath path, normPrefixPath path, some (rstripSlash slug)⟩

/-- The entry loop of `get_videos_by_tag` / `get_videos_by_category`. -/
def procTagMatches (maxr : Nat) :
    List (List Char × List Char × List Char) → List (List Char) → List SEntry → List SEntry
  | [], _, acc => acc
  | (path, vid, slug) :: ms, seen, acc =>
    if !seen.contains vid && acc.length < maxr then
      procTagMatches maxr ms (vid :: seen) (acc ++ [tagEntry path vid slug])
    else procTagMatches maxr ms seen acc

/-- The parsing part of `Client.get_videos_by_tag` (and, character for
character, of `Client.get_videos_by_category`). -/
def byTagEntries (html : List Char) (maxr : Nat) : List SEntry :=
  procTagMatches maxr (findAll matchTagLinkAt html) [] []

/-! ### `Video.rating` -/

/-- Round-half-to-even on rationals, the behaviour of Python's `round`
(the float arithmetic of `rating` is idealised to exact rationals; the
properties below are insensitive to the difference). -/
def roundHalfEven (q : ℚ) : ℤ :=
  if q - q.floor < 1 / 2 then q.floor
  else if 1 / 2 < q - q.floor then q.floor + 1
  else if q.floor % 2 = 0 then q.floor else q.floor + 1

/-- `round(x, 2)`. -/
def round2 (q : ℚ) : ℚ :=
  (roundHalfEven (q * 100) : ℚ) / 100

/-- `Video.rating`: `0.0` when there are no votes, else
`round(likes / total * 100, 2)`. -/
def rating (likes dislikes : ℕ) : ℚ :=
  if likes + dislikes = 0 then 0
  else round2 ((likes : ℚ) / ((likes : ℚ) + (dislikes : ℚ)) * 100)

/-! ### Derived notions used by the statements below -/

/-- An optional capture that, when present, is a non-empty digit run. -/
def digitRunOpt (g : Option (List Char)) : Prop :=
  ∀ ds, g = some ds → ds ≠ [] ∧ ∀ c ∈ ds, isAsciiDigit c = true

/-- The transport exception recorded while handling one candidate. -/
def exnOf (fetch : List Char → FetchOutcome) (u : List Char) : Option (List Char) :=
  match fetch u with
  | .exn e => some e
  | .ok _ _ => none

/-- The guarded de-duplication performed by the search loops, at the level
of the extracted ids alone: keep the first occurrence of each non-empty
all-digit id not already seen. -/
def dedupDigitIds (seen : List (List Char)) : List (List Char) → List (List Char)
  | [] => []
  | i :: is =>
    if !i.isEmpty && i.all isAsciiDigit && !seen.contains i then
      i :: dedupDigitIds (i :: seen) is
    else dedupDigitIds seen is

/-- The ids captured by pattern 1 of `Client.search`, in match order. -/
def p1Ids (html : List Char) : List (List Char) :=
  (p1Matches html).map (fun m => m.2.1)

/-- A small search-results page: three distinct id+slug links, the first
one repeated. -/
def c9html : List Char :=
  strL "<a href=\"/video/111/aa/\">x</a><a href=\"/video/111/aa/\">x</a><a href=\"/video/222/bb/\">y</a><a href=\"/video/333/cc/\">z</a>"

/-- A tag-listing page whose single link carries a plural-segment path
with no trailing slash. -/
def c6html : List Char :=
  strL "<a href=\"/videos/123/cool-vid\">x</a>"

/-- A page body on which the flashvars pass stores a URL under "720p" and
the kt_player pass then stores a different URL under the same label. -/
def c1content : List Char :=
  strL "flashvars = \x7b video_url: \"https://cdn.example.com/v_720.mp4\", video_url_text: \"720p\" \x7d; kt_player(\"pl\", \"https://alt.example.com/k_720.mp4\", 12);"

/-! ## Shared lemmas -/

theorem isPySpace_of_digit {c : Char} (h : isAsciiDigit c = true) : isPySpace c = false := by
  cases hv : isPySpace c
  · rfl
  · exfalso
    simp only [isPySpace, Bool.or_eq_true, decide_eq_true_eq] at hv
    rcases hv with ((((h1 | h1) | h1) | h1) | h1) | h1 <;> subst h1 <;>
      exact absurd h (by decide)

theorem dropWhile_eq_self_head {p : Char → Bool} {l : List Char}
    (h : ∀ a, l.head? = some a → p a = false) : l.dropWhile p = l := by
  cases l with
  | nil => rfl
  | cons a t => simp [List.dropWhile_cons, h a rfl]

theorem pyStrip_eq_self {l : List Char}
    (h1 : ∀ a, l.head? = some a → isPySpace a = false)
    (h2 : ∀ a, l.getLast? = some a → isPySpace a = false) : pyStrip l = l := by
  unfold pyStrip
  rw [dropWhile_eq_self_head h1]
  rw [dropWhile_eq_self_head (fun a ha => h2 a (by rwa [List.head?_reverse] at ha))]
  exact List.reverse_reverse l

theorem mem_of_getLast?_eq {l : List Char} {a : Char} (h : l.getLast? = some a) : a ∈ l := by
  obtain ⟨hne, rfl⟩ := List.mem_getLast?_eq_getLast (Option.mem_def.mpr h)
  exact List.getLast_mem hne

theorem pyStrip_digits {l : List Char} (h : ∀ c ∈ l, isAsciiDigit c = true) : pyStrip l = l :=
  pyStrip_eq_self
    (fun a ha => isPySpace_of_digit (h a (List.mem_of_mem_head? ha)))
    (fun a ha => isPySpace_of_digit (h a (mem_of_getLast?_eq ha)))

theorem pyInt_digits {ds : List Char} (h1 : ds ≠ []) (h2 : ∀ c ∈ ds, isAsciiDigit c = true) :
    pyInt ds = some ((digitsToNat ds : Int)) := by
  have hall : ds.all isAsciiDigit = true := by
    rw [List.all_eq_true]; intro x hx; exact h2 x hx
  unfold pyInt
  rw [pyStrip_digits h2]
  cases ds with
  | nil => exact absurd rfl h1
  | cons c rest =>
    have hc := h2 c (List.mem_cons_self c rest)
    have hcm : c ≠ '-' := by
      intro e; rw [e] at hc; exact absurd hc (by decide)
    have hcp : c ≠ '+' := by
      intro e; rw [e] at hc; exact absurd hc (by decide)
    split
    · rename_i heq
      exact absurd (List.head_eq_of_cons_eq heq) hcm
    · rename_i heq
      exact absurd (List.head_eq_of_cons_eq heq) hcp
    · simp [hall]

theorem digitsToNat_cast_nonneg (ds : List Char) : (0 : Int) ≤ (digitsToNat ds : Int) :=
  Int.natCast_nonneg _

theorem takeDigits_digits {l : List Char} : ∀ c ∈ takeDigits l, isAsciiDigit c = true :=
  fun _ hc => List.mem_takeWhile_imp hc

theorem optNumUnit_digitRun (u : Char) (l : List Char) : digitRunOpt (optNumUnit u l).1 := by
  intro ds hds
  unfold optNumUnit at hds
  split at hds
  · simp at hds
  · rename_i hne
    split at hds
    · split at hds
      · obtain rfl : takeDigits l = ds := by injection hds
        refine ⟨by simpa [List.isEmpty_iff] using hne, takeDigits_digits⟩
      · simp at hds
    · simp at hds

theorem intOr0_digitRun {g : Option (List Char)} (h : digitRunOpt g) :
    ∃ n : Int, intOr0 g = some n ∧ 0 ≤ n := by
  cases g with
  | none => exact ⟨0, rfl, le_refl 0⟩
  | some ds =>
    obtain ⟨hne, hdig⟩ := h ds rfl
    exact ⟨(digitsToNat ds : Int), by simpa [intOr0] using pyInt_digits hne hdig,
      digitsToNat_cast_nonneg ds⟩

theorem isoMatch_groups {t : List Char}
    {g : Option (List Char) × Option (List Char) × Option (List Char)}
    (h : isoMatch t = some g) : digitRunOpt g.1 ∧ digitRunOpt g.2.1 ∧ digitRunOpt g.2.2 := by
  unfold isoMatch at h
  split at h
  · split at h
    · obtain rfl : _ = g := by injection h
      exact ⟨optNumUnit_digitRun _ _, optNumUnit_digitRun _ _, optNumUnit_digitRun _ _⟩
    · simp at h
  · simp at h

theorem timeG3_digitRun (l : List Char) : digitRunOpt (timeG3 l) := by
  intro ds hds
  unfold timeG3 at hds
  split at hds
  · split at hds
    · simp at hds
    · rename_i hne
      obtain rfl : takeDigits _ = ds := by injection hds
      exact ⟨by simpa [List.isEmpty_iff] using hne, takeDigits_digits⟩
  · simp at hds

theorem timeMatch_groups {t : List Char}
    {g : List Char × List Char × Option (List Char)}
    (h : timeMatch t = some g) :
    (g.1 ≠ [] ∧ ∀ c ∈ g.1, isAsciiDigit c = true) ∧
    (g.2.1 ≠ [] ∧ ∀ c ∈ g.2.1, isAsciiDigit c = true) ∧
    digitRunOpt g.2.2 := by
  unfold timeMatch at h
  split at h
  · simp at h
  · rename_i hne1
    split at h
    · split at h
      · simp at h
      · rename_i hne2
        obtain rfl : _ = g := by injection h
        exact ⟨⟨by simpa [List.isEmpty_iff] using hne1, takeDigits_digits⟩,
          ⟨by simpa [List.isEmpty_iff] using hne2, takeDigits_digits⟩, timeG3_digitRun _⟩
    · simp at h

/-! ## C8 -/

/-- C8: duration parsing maps `"5:30"` to 330, `"1:23:45"` to 5025,
`"PT5M30S"` to 330 and `"45"` to 45, normalising ISO-8601-style,
H:MM:SS / MM:SS and raw integer-second inputs to integer seconds. -/
theorem c8_duration_vectors :
    parseDuration (strL "5:30") = some 330 ∧
    parseDuration (strL "1:23:45") = some 5025 ∧
    parseDuration (strL "PT5M30S") = some 330 ∧
    parseDuration (strL "45") = some 45 := by
  decide

/-! ## C10 -/

/-- C10: duration parsing is total on every input string: it always
returns `some` non-negative number (no exception escapes), and it returns
0 when none of the three recognised duration shapes is present. -/
theorem c10_duration_total (s : List Char) :
    (∃ n : Int, parseDuration s = some n ∧ 0 ≤ n) ∧
    (isoMatch (pyStrip s) = none → timeMatch (pyStrip s) = none →
      pyIsDigitStr (pyStrip s) = false → parseDuration s = some 0) := by
  constructor
  · by_cases he : s.isEmpty
    · exact ⟨0, by simp [parseDuration, he], le_refl 0⟩
    · simp only [parseDuration, he, Bool.false_eq_true, if_false]
      cases hiso : isoMatch (pyStrip s) with
      | some g =>
        obtain ⟨q1, q2, q3⟩ := isoMatch_groups hiso
        obtain ⟨h, hh, hhn⟩ := intOr0_digitRun q1
        obtain ⟨m, hm, hmn⟩ := intOr0_digitRun q2
        obtain ⟨sec, hs, hsn⟩ := intOr0_digitRun q3
        refine ⟨h * 3600 + m * 60 + sec, ?_, ?_⟩
        · obtain ⟨g1, g2, g3⟩ := g
          simp [hh, hm, hs]
        · have := mul_nonneg hhn (by norm_num : (0:Int) ≤ 3600)
          have := mul_nonneg hmn (by norm_num : (0:Int) ≤ 60)
          omega
      | none =>
        cases htm : timeMatch (pyStrip s) with
        | some g =>
          obtain ⟨⟨hne1, hd1⟩, ⟨hne2, hd2⟩, q3⟩ := timeMatch_groups htm
          obtain ⟨g1, g2, g3⟩ := g
          cases g3 with
          | some d3 =>
            obtain ⟨hne3, hd3⟩ := q3 d3 rfl
            refine ⟨digitsToNat g1 * 3600 + digitsToNat g2 * 60 + digitsToNat d3, ?_, ?_⟩
            · simp [pyInt_digits hne1 hd1, pyInt_digits hne2 hd2, pyInt_digits hne3 hd3]
            · positivity
          | none =>
            refine ⟨digitsToNat g1 * 60 + digitsToNat g2, ?_, ?_⟩
            · simp [pyInt_digits hne1 hd1, pyInt_digits hne2 hd2]
            · positivity
        | none =>
          by_cases hd : pyIsDigitStr (pyStrip s)
          · have hne : pyStrip s ≠ [] := by
              simp only [pyIsDigitStr, Bool.and_eq_true, Bool.not_eq_true'] at hd
              simpa [List.isEmpty_iff] using hd.1
            have hdig : ∀ c ∈ pyStrip s, isAsciiDigit c = true := by
              simp only [pyIsDigitStr, Bool.and_eq_true, List.all_eq_true] at hd
              exact hd.2
            exact ⟨(digitsToNat (pyStrip s) : Int),
              by simp [hd, pyInt_digits hne hdig], digitsToNat_cast_nonneg _⟩
          · exact ⟨0, by simp [hd], le_refl 0⟩
  · intro h1 h2 h3
    by_cases he : s.isEmpty
    · simp [parseDuration, he]
    · simp [parseDuration, he, h1, h2, h3]

/-- Witness for C10 at a concrete malformed input. -/
theorem c10_duration_total_witness :
    (∃ n : Int, parseDuration (strL "xy z!") = some n ∧ 0 ≤ n) ∧
    parseDuration (strL "xy z!") = some 0 :=
  ⟨(c10_duration_total (strL "xy z!")).1,
   (c10_duration_total (strL "xy z!")).2 (by decide) (by decide) (by decide)⟩

/-! ## C4 -/

theorem ratFloor_eq (q : ℚ) : q.floor = ⌊q⌋ := by
  rw [Rat.floor_def', Rat.floor_def]

theorem roundHalfEven_nonneg {q : ℚ} (h : 0 ≤ q) : 0 ≤ roundHalfEven q := by
  have hf : (0 : ℤ) ≤ q.floor := by
    rw [ratFloor_eq]; exact Int.floor_nonneg.mpr h
  unfold roundHalfEven
  split_ifs <;> omega

theorem roundHalfEven_le_int {q : ℚ} {n : ℤ} (h : q ≤ n) : roundHalfEven q ≤ n := by
  have hf : q.floor ≤ n := by
    rw [ratFloor_eq]
    calc ⌊q⌋ ≤ ⌊(n : ℚ)⌋ := Int.floor_le_floor h
      _ = n := Int.floor_intCast n
  have hfq : ((q.floor : ℤ) : ℚ) ≤ q := by
    rw [ratFloor_eq]; exact Int.floor_le q
  unfold roundHalfEven
  split_ifs with h1 h2 h3
  · exact hf
  · have : ((q.floor : ℤ) : ℚ) < (n : ℚ) := by linarith
    have : q.floor < n := by exact_mod_cast this
    omega
  · exact hf
  · have heq : q - q.floor = 1 / 2 := le_antisymm (not_lt.mp h2) (not_lt.mp h1)
    have : ((q.floor : ℤ) : ℚ) < (n : ℚ) := by linarith
    have : q.floor < n := by exact_mod_cast this
    omega

/-- Counterexample for C4 as stated: with 1 like and 999999 dislikes the
vote total is positive, yet the rounded rating is exactly 0 — "equals 0
exactly when likes + dislikes = 0" fails in the "only when" direction. -/
theorem c4_counterexample : rating 1 999999 = 0 ∧ 1 + 999999 ≠ 0 := by
  constructor
  · have hfl : ((1 : ℚ) / 100).floor = 0 := by
      rw [ratFloor_eq, Int.floor_eq_zero_iff]
      constructor <;> norm_num
    unfold rating
    rw [if_neg (by norm_num)]
    have harg : ((1 : ℕ) : ℚ) / (((1 : ℕ) : ℚ) + ((999999 : ℕ) : ℚ)) * 100 = 1 / 10000 := by
      push_cast; norm_num
    rw [harg]
    unfold round2 roundHalfEven
    rw [show (1 : ℚ) / 10000 * 100 = 1 / 100 by norm_num, hfl]
    norm_num
  · norm_num

/-- C4 as amended: the rating is the half-even two-decimal rounding of
`likes / (likes + dislikes) * 100`, always lies in `[0, 100]`, and is 0
whenever `likes + dislikes = 0` — but not only then, since a small enough
positive ratio also rounds to 0. -/
theorem c4_rating_amended (likes dislikes : ℕ) :
    0 ≤ rating likes dislikes ∧ rating likes dislikes ≤ 100 ∧
    (likes + dislikes = 0 → rating likes dislikes = 0) := by
  by_cases h0 : likes + dislikes = 0
  · unfold rating
    rw [if_pos h0]
    exact ⟨le_refl 0, by norm_num, fun _ => rfl⟩
  · unfold rating
    rw [if_neg h0]
    have hd : (0 : ℚ) < (likes : ℚ) + (dislikes : ℚ) := by
      have hp : 0 < likes + dislikes := Nat.pos_of_ne_zero h0
      have : ((likes : ℚ) + (dislikes : ℚ)) = ((likes + dislikes : ℕ) : ℚ) := by push_cast; ring
      rw [this]
      exact_mod_cast hp
    have hq0 : 0 ≤ (likes : ℚ) / ((likes : ℚ) + (dislikes : ℚ)) * 100 := by positivity
    have hq100 : (likes : ℚ) / ((likes : ℚ) + (dislikes : ℚ)) * 100 ≤ 100 := by
      have hle : (likes : ℚ) ≤ (likes : ℚ) + (dislikes : ℚ) :=
        le_add_of_nonneg_right (by positivity)
      have hr : (likes : ℚ) / ((likes : ℚ) + (dislikes : ℚ)) ≤ 1 :=
        div_le_one_of_le₀ hle (le_of_lt hd)
      nlinarith
    refine ⟨?_, ?_, fun hcontra => absurd hcontra h0⟩
    · unfold round2
      have hnn := roundHalfEven_nonneg (q := (likes : ℚ) / ((likes : ℚ) + (dislikes : ℚ)) * 100 * 100)
        (by positivity)
      exact div_nonneg (by exact_mod_cast hnn) (by norm_num)
    · unfold round2
      have hle : (likes : ℚ) / ((likes : ℚ) + (dislikes : ℚ)) * 100 * 100 ≤ ((10000 : ℤ) : ℚ) := by
        push_cast
        nlinarith
      have hb := roundHalfEven_le_int hle
      rw [div_le_iff₀ (by norm_num : (0 : ℚ) < 100)]
      calc ((roundHalfEven _ : ℤ) : ℚ) ≤ ((10000 : ℤ) : ℚ) := by exact_mod_cast hb
        _ = 100 * 100 := by norm_num

/-- Witness for C4's amended theorem at likes = 0, dislikes = 0. -/
theorem c4_rating_amended_witness :
    0 ≤ rating 0 0 ∧ rating 0 0 ≤ 100 ∧ rating 0 0 = 0 :=
  ⟨(c4_rating_amended 0 0).1, (c4_rating_amended 0 0).2.1, (c4_rating_amended 0 0).2.2 rfl⟩

/-! ## C7 -/

theorem extractVideoId_digits {d : List Char} (h1 : d ≠ [])
    (h2 : ∀ c ∈ d, isAsciiDigit c = true) : extractVideoId d = some d := by
  have hie : d.isEmpty = false := by
    cases d
    · exact absurd rfl h1
    · rfl
  have hall : d.all isAsciiDigit = true := List.all_eq_true.mpr h2
  simp [extractVideoId, hie, pyStrip_digits h2, pyIsDigitStr, hall]

theorem ne_of_len {u v : List Char} (h : u.length ≠ v.length) : u ≠ v :=
  fun e => h (congrArg List.length e)

theorem append_cons_ne {p u v : List Char} {x y : Char} (h : x ≠ y) :
    p ++ x :: u ≠ p ++ y :: v := by
  intro he
  exact h (List.head_eq_of_cons_eq (List.append_cancel_left he))

theorem dedupFrom_eq_self {l seen : List (List Char)} (h1 : ∀ x ∈ l, x ∉ seen)
    (h2 : l.Nodup) : dedupFrom seen l = l := by
  induction l generalizing seen with
  | nil => rfl
  | cons x xs ih =>
    have hx : seen.contains x = false := by
      rw [Bool.eq_false_iff]
      intro hc
      exact h1 x (List.mem_cons_self x xs) (List.elem_iff.mp hc)
    rw [dedupFrom, hx]
    simp only [Bool.false_eq_true, if_false]
    congr 1
    apply ih
    · intro y hy hmem
      rcases List.mem_cons.mp hmem with rfl | hm
      · exact (List.nodup_cons.mp h2).1 hy
      · exact h1 y (List.mem_cons_of_mem x hy) hm
    · exact (List.nodup_cons.mp h2).2

/-- C7: a bare-digit identifier with no known full URL yields exactly the
four id-only fallback candidates — `/video/<id>/`, `/videos/<id>/`,
`/video/<id>`, `/videos/<id>` in that order — no slug-qualified URL, and
the order-preserving de-duplication leaves them untouched. -/
theorem c7_bare_id_fallbacks (d : List Char) (h1 : d ≠ [])
    (h2 : d.all isAsciiDigit = true) :
    extractVideoId d = some d ∧
    getUrlVariants none d =
      [rootUrl ++ strL "/video/" ++ d ++ strL "/",
       rootUrl ++ strL "/videos/" ++ d ++ strL "/",
       rootUrl ++ strL "/video/" ++ d,
       rootUrl ++ strL "/videos/" ++ d] := by
  refine ⟨extractVideoId_digits h1 (List.all_eq_true.mp h2), ?_⟩
  have lp1 : (rootUrl ++ strL "/video/" ++ d ++ strL "/").length = d.length + 31 := by
    have a1 : rootUrl.length = 23 := rfl
    have a2 : (strL "/video/").length = 7 := rfl
    have a3 : (strL "/").length = 1 := rfl
    simp only [List.length_append, a1, a2, a3]
    omega
  have lp2 : (rootUrl ++ strL "/videos/" ++ d ++ strL "/").length = d.length + 32 := by
    have a1 : rootUrl.length = 23 := rfl
    have a2 : (strL "/videos/").length = 8 := rfl
    have a3 : (strL "/").length = 1 := rfl
    simp only [List.length_append, a1, a2, a3]
    omega
  have lp3 : (rootUrl ++ strL "/video/" ++ d).length = d.length + 30 := by
    have a1 : rootUrl.length = 23 := rfl
    have a2 : (strL "/video/").length = 7 := rfl
    simp only [List.length_append, a1, a2]
    omega
  have lp4 : (rootUrl ++ strL "/videos/" ++ d).length = d.length + 31 := by
    have a1 : rootUrl.length = 23 := rfl
    have a2 : (strL "/videos/").length = 8 := rfl
    simp only [List.length_append, a1, a2]
    omega
  have n12 : rootUrl ++ strL "/video/" ++ d ++ strL "/" ≠ rootUrl ++ strL "/videos/" ++ d ++ strL "/" :=
    ne_of_len (by omega)
  have n13 : rootUrl ++ strL "/video/" ++ d ++ strL "/" ≠ rootUrl ++ strL "/video/" ++ d :=
    ne_of_len (by omega)
  have n14 : rootUrl ++ strL "/video/" ++ d ++ strL "/" ≠ rootUrl ++ strL "/videos/" ++ d := by
    have e1 : rootUrl ++ strL "/video/" ++ d ++ strL "/" =
        (rootUrl ++ strL "/video") ++ '/' :: (d ++ strL "/") := rfl
    have e4 : rootUrl ++ strL "/videos/" ++ d =
        (rootUrl ++ strL "/video") ++ 's' :: ('/' :: d) := rfl
    rw [e1, e4]
    exact append_cons_ne (by decide)
  have n23 : rootUrl ++ strL "/videos/" ++ d ++ strL "/" ≠ rootUrl ++ strL "/video/" ++ d :=
    ne_of_len (by omega)
  have n24 : rootUrl ++ strL "/videos/" ++ d ++ strL "/" ≠ rootUrl ++ strL "/videos/" ++ d :=
    ne_of_len (by omega)
  have n34 : rootUrl ++ strL "/video/" ++ d ≠ rootUrl ++ strL "/videos/" ++ d :=
    ne_of_len (by omega)
  have key : getUrlVariants none d =
      dedupFrom [] [rootUrl ++ strL "/video/" ++ d ++ strL "/",
        rootUrl ++ strL "/videos/" ++ d ++ strL "/",
        rootUrl ++ strL "/video/" ++ d,
        rootUrl ++ strL "/videos/" ++ d] := rfl
  rw [key]
  apply dedupFrom_eq_self
  · intro x _ hmem
    exact absurd hmem (List.not_mem_nil x)
  · refine List.nodup_cons.mpr ⟨?_, List.nodup_cons.mpr ⟨?_, List.nodup_cons.mpr
      ⟨?_, List.nodup_singleton _⟩⟩⟩
    · intro hmem
      rcases List.mem_cons.mp hmem with e | hm
      · exact n12 e
      rcases List.mem_cons.mp hm with e | hm2
      · exact n13 e
      exact n14 (List.mem_singleton.mp hm2)
    · intro hmem
      rcases List.mem_cons.mp hmem with e | hm
      · exact n23 e
      exact n24 (List.mem_singleton.mp hm)
    · intro hmem
      exact n34 (List.mem_singleton.mp hmem)

/-- Witness for C7 at the identifier "4167287". -/
theorem c7_bare_id_fallbacks_witness :
    extractVideoId (strL "4167287") = some (strL "4167287") ∧
    getUrlVariants none (strL "4167287") =
      [rootUrl ++ strL "/video/" ++ strL "4167287" ++ strL "/",
       rootUrl ++ strL "/videos/" ++ strL "4167287" ++ strL "/",
       rootUrl ++ strL "/video/" ++ strL "4167287",
       rootUrl ++ strL "/videos/" ++ strL "4167287"] :=
  c7_bare_id_fallbacks (strL "4167287") (by decide) (by decide)

/-! ## C5 -/

theorem takeWhile_append_stop {p : Char → Bool} {d rest : List Char} {x : Char}
    (hd : ∀ c ∈ d, p c = true) (hx : p x = false) :
    (d ++ x :: rest).takeWhile p = d := by
  induction d with
  | nil => simp [List.takeWhile_cons, hx]
  | cons a t ih =>
    simp [List.takeWhile_cons, hd a (List.mem_cons_self a t),
      ih (fun c hc => hd c (List.mem_cons_of_mem a hc))]

theorem dropWhile_append_stop {p : Char → Bool} {d rest : List Char} {x : Char}
    (hd : ∀ c ∈ d, p c = true) (hx : p x = false) :
    (d ++ x :: rest).dropWhile p = x :: rest := by
  induction d with
  | nil => simp [List.dropWhile_cons, hx]
  | cons a t ih =>
    simp [List.dropWhile_cons, hd a (List.mem_cons_self a t),
      ih (fun c hc => hd c (List.mem_cons_of_mem a hc))]

theorem digit_ne_slash {c : Char} (h : isAsciiDigit c = true) : c ≠ '/' := by
  intro e
  rw [e] at h
  exact absurd h (by decide)

theorem rstripSlash_concat {s : List Char} (h : s.getLast? ≠ some '/') :
    rstripSlash (s ++ ['/']) = s := by
  unfold rstripSlash
  rw [List.reverse_append]
  have h1 : (['/'] : List Char).reverse ++ s.reverse = '/' :: s.reverse := rfl
  rw [h1, List.dropWhile_cons]
  have h2 : (decide ('/' = '/')) = true := by decide
  rw [h2]
  simp only [if_true]
  rw [dropWhile_eq_self_head, List.reverse_reverse]
  intro a ha
  rw [List.head?_reverse] at ha
  have : a ≠ '/' := fun e => h (e ▸ ha)
  simpa using this

/-- C5: for every identifier of the form `<digits>/<slug>/`, the command
layer's identifier parser plus the candidate generator succeed, and the
first emitted candidate URL is the origin followed by `/video/`, the
digits, `/`, the slug and a trailing `/`. -/
theorem c5_slug_identifier_first_candidate
    (cache : List Char → Option (List Char)) (d s : List Char)
    (h1 : d ≠ []) (h2 : d.all isAsciiDigit = true) (h3 : s.getLast? ≠ some '/') :
    extractVideoId (parseVideoIdentifier cache (d ++ '/' :: (s ++ ['/']))).1 = some d ∧
    (getUrlVariants (parseVideoIdentifier cache (d ++ '/' :: (s ++ ['/']))).2 d).head? =
      some (rootUrl ++ strL "/video/" ++ d ++ strL "/" ++ s ++ strL "/") := by
  have h2' := List.all_eq_true.mp h2
  obtain ⟨c0, d', rfl⟩ : ∃ c0 d', d = c0 :: d' := by
    cases d
    · exact absurd rfl h1
    · exact ⟨_, _, rfl⟩
  have hstrip : pyStrip ((c0 :: d') ++ '/' :: (s ++ ['/'])) = (c0 :: d') ++ '/' :: (s ++ ['/']) := by
    apply pyStrip_eq_self
    · intro a ha
      have he : c0 = a := by
        simpa using ha
      exact he ▸ isPySpace_of_digit (h2' c0 (List.mem_cons_self c0 d'))
    · intro a ha
      have he : (c0 :: d') ++ '/' :: (s ++ ['/']) = ((c0 :: d') ++ '/' :: s) ++ ['/'] := by
        simp [List.append_assoc]
      rw [he, List.getLast?_concat] at ha
      have : a = '/' := by simpa using ha.symm
      subst this
      decide
  have hcontainsSlash : ((c0 :: d') ++ '/' :: (s ++ ['/'])).contains '/' = true := by
    apply List.elem_iff.mpr
    exact List.mem_append_right _ (List.mem_cons_self _ _)
  have hdig : ∀ c ∈ c0 :: d', (decide ¬(c = '/')) = true := by
    intro c hc
    simpa using digit_ne_slash (h2' c hc)
  have hslash : (decide ¬(('/' : Char) = '/')) = false := by decide
  have hparse : parseVideoIdentifier cache ((c0 :: d') ++ '/' :: (s ++ ['/'])) =
      (c0 :: d', some (strL "https://rule34video.com/video/" ++ (c0 :: d') ++ strL "/" ++
        rstripSlash (s ++ ['/']) ++ strL "/")) := by
    unfold parseVideoIdentifier
    rw [hstrip, hcontainsSlash]
    simp only [if_true]
    rw [takeWhile_append_stop hdig hslash, dropWhile_append_stop hdig hslash]
    rfl
  rw [hparse, rstripSlash_concat h3]
  exact ⟨extractVideoId_digits h1 h2', rfl⟩

/-- Witness for C5 at the identifier "123/my-slug/". -/
theorem c5_slug_identifier_first_candidate_witness :
    extractVideoId (parseVideoIdentifier (fun _ => none)
      (strL "123" ++ '/' :: (strL "my-slug" ++ ['/']))).1 = some (strL "123") ∧
    (getUrlVariants (parseVideoIdentifier (fun _ => none)
      (strL "123" ++ '/' :: (strL "my-slug" ++ ['/']))).2 (strL "123")).head? =
      some (rootUrl ++ strL "/video/" ++ strL "123" ++ strL "/" ++ strL "my-slug" ++ strL "/") :=
  c5_slug_identifier_first_candidate (fun _ => none) (strL "123") (strL "my-slug")
    (by decide) (by decide) (by decide)

/-! ## C3 -/

theorem dlookup_eq_none_of_not_mem {m : QMap} {k : List Char} (h : k ∉ dkeys m) :
    dlookup m k = none := by
  induction m with
  | nil => rfl
  | cons p rest ih =>
    obtain ⟨k0, v0⟩ := p
    have hne : k0 ≠ k := fun e => h (e ▸ List.mem_cons_self k0 (dkeys rest))
    have hb : (k0 == k) = false := beq_eq_false_iff_ne.mpr hne
    rw [dlookup, hb]
    simp only [Bool.false_eq_true, if_false]
    exact ih (fun hm => h (List.mem_cons_of_mem k0 hm))

theorem dkeys_ne_nil {m : QMap} (h : m ≠ []) : dkeys m ≠ [] := by
  cases m with
  | nil => exact absurd rfl h
  | cons p rest => simp [dkeys]

theorem isEmpty_false_of_ne_nil {α : Type} {l : List α} (h : l ≠ []) : l.isEmpty = false := by
  cases l with
  | nil => exact absurd rfl h
  | cons a t => rfl

theorem sorted_getLast_min :
    ∀ (xs : List (List Char)), List.Sorted qGE xs → ∀ (hne : xs ≠ []) (y : List Char),
      y ∈ xs → getResolution (xs.getLast hne) ≤ getResolution y
  | [], _, hne, _, _ => absurd rfl hne
  | [x], _, _, y, hy => by
    rcases List.mem_singleton.mp hy with rfl
    exact le_refl _
  | x :: x2 :: t, h, _, y, hy => by
    have hlast : (x :: x2 :: t).getLast (by simp) = (x2 :: t).getLast (by simp) :=
      List.getLast_cons (by simp)
    rcases List.mem_cons.mp hy with rfl | hmem
    · rw [hlast]
      exact List.rel_of_sorted_cons h _ (List.getLast_mem (by simp))
    · rw [hlast]
      exact sorted_getLast_min (x2 :: t) h.of_cons (by simp) y hmem

/-- C3 as amended: `select("best")` returns a URL stored under a label of
maximal numeric resolution, and `select("worst")` one of minimal
resolution, provided no label is literally `"best"`/`"worst"` or the empty
string; and `select(label)` round-trips for exactly those labels that are
fixed points of quality normalization (labels such as `"default"`
normalize to `"best"` and are not returned verbatim). -/
theorem c3_selection_amended :
    (∀ m : QMap, m ≠ [] → strL "best" ∉ dkeys m → ([] : List Char) ∉ dkeys m →
      ∃ l ∈ dkeys m, (∀ k ∈ dkeys m, getResolution k ≤ getResolution l) ∧
        getVideoUrl m (strL "best") = dlookup m l) ∧
    (∀ m : QMap, m ≠ [] → strL "worst" ∉ dkeys m → ([] : List Char) ∉ dkeys m →
      ∃ l ∈ dkeys m, (∀ k ∈ dkeys m, getResolution l ≤ getResolution k) ∧
        getVideoUrl m (strL "worst") = dlookup m l) ∧
    (∀ (m : QMap) (label u : List Char), normalizeQuality label = label →
      dlookup m label = some u → getVideoUrl m label = some u) := by
  refine ⟨?_, ?_, ?_⟩
  · intro m hm hb he
    cases hs : pySortQualities (dkeys m) with
    | nil =>
      exfalso
      have hperm := List.perm_insertionSort qGE (dkeys m)
      rw [show List.insertionSort qGE (dkeys m) = pySortQualities (dkeys m) from rfl, hs] at hperm
      exact dkeys_ne_nil hm hperm.symm.eq_nil
    | cons q qs =>
      have hs' : List.insertionSort qGE (dkeys m) = q :: qs := hs
      have hperm := List.perm_insertionSort qGE (dkeys m)
      have hqmem : q ∈ dkeys m := by
        rw [hs'] at hperm
        exact hperm.mem_iff.mp (List.mem_cons_self q qs)
      have hsorted : List.Sorted qGE (q :: qs) := hs' ▸ List.sorted_insertionSort qGE (dkeys m)
      have hmax : ∀ k ∈ dkeys m, getResolution k ≤ getResolution q := by
        intro k hk
        have hk' : k ∈ q :: qs := by
          rw [← hs']
          exact (List.perm_insertionSort qGE (dkeys m)).mem_iff.mpr hk
        rcases List.mem_cons.mp hk' with rfl | hmem
        · exact le_refl _
        · exact List.rel_of_sorted_cons hsorted k hmem
      refine ⟨q, hqmem, hmax, ?_⟩
      have hqie : q.isEmpty = false := isEmpty_false_of_ne_nil (fun e => he (e ▸ hqmem))
      have hmie : m.isEmpty = false := isEmpty_false_of_ne_nil hm
      have hnb : normalizeQuality (strL "best") = strL "best" := rfl
      have hsel : selectBestQuality (dkeys m) (strL "best") = some q := by
        unfold selectBestQuality
        rw [isEmpty_false_of_ne_nil (dkeys_ne_nil hm)]
        simp only [Bool.false_eq_true, if_false]
        rw [hs, hnb]
        simp
      unfold getVideoUrl
      rw [hmie]
      simp only [Bool.false_eq_true, if_false]
      rw [hnb, dlookup_eq_none_of_not_mem hb, hsel]
      simp [hqie]
  · intro m hm hw he
    cases hs : pySortQualities (dkeys m) with
    | nil =>
      exfalso
      have hperm := List.perm_insertionSort qGE (dkeys m)
      rw [show List.insertionSort qGE (dkeys m) = pySortQualities (dkeys m) from rfl, hs] at hperm
      exact dkeys_ne_nil hm hperm.symm.eq_nil
    | cons q qs =>
      have hs' : List.insertionSort qGE (dkeys m) = q :: qs := hs
      have hperm := List.perm_insertionSort qGE (dkeys m)
      have hsorted : List.Sorted qGE (q :: qs) := hs' ▸ List.sorted_insertionSort qGE (dkeys m)
      have hlmem : (q :: qs).getLast (List.cons_ne_nil q qs) ∈ dkeys m := by
        rw [hs'] at hperm
        exact hperm.mem_iff.mp (List.getLast_mem (List.cons_ne_nil q qs))
      have hmin : ∀ k ∈ dkeys m,
          getResolution ((q :: qs).getLast (List.cons_ne_nil q qs)) ≤ getResolution k := by
        intro k hk
        have hk' : k ∈ q :: qs := by
          rw [← hs']
          exact (List.perm_insertionSort qGE (dkeys m)).mem_iff.mpr hk
        exact sorted_getLast_min (q :: qs) hsorted (List.cons_ne_nil q qs) k hk'
      refine ⟨(q :: qs).getLast (List.cons_ne_nil q qs), hlmem, hmin, ?_⟩
      have hqie : ((q :: qs).getLast (List.cons_ne_nil q qs)).isEmpty = false :=
        isEmpty_false_of_ne_nil (fun e => he (e ▸ hlmem))
      have hmie : m.isEmpty = false := isEmpty_false_of_ne_nil hm
      have hnw : normalizeQuality (strL "worst") = strL "worst" := rfl
      have hsel : selectBestQuality (dkeys m) (strL "worst") =
          some ((q :: qs).getLast (List.cons_ne_nil q qs)) := by
        unfold selectBestQuality
        rw [isEmpty_false_of_ne_nil (dkeys_ne_nil hm)]
        simp only [Bool.false_eq_true, if_false]
        rw [hs, hnw, show (strL "worst" == strL "best") = false from by decide]
        simp
      unfold getVideoUrl
      rw [hmie]
      simp only [Bool.false_eq_true, if_false]
      rw [hnw, dlookup_eq_none_of_not_mem hw, hsel]
      simp [hqie]
  · intro m label u hnorm hlook
    have hm : m ≠ [] := by
      intro e
      subst e
      simp [dlookup] at hlook
    unfold getVideoUrl
    rw [isEmpty_false_of_ne_nil hm]
    simp only [Bool.false_eq_true, if_false]
    rw [hnorm, hlook]

/-- Witness for C3's amended theorem on a concrete two-label map. -/
theorem c3_selection_amended_witness :
    (∃ l ∈ dkeys [(strL "360p", strL "u3"), (strL "720p", strL "u7")],
      (∀ k ∈ dkeys [(strL "360p", strL "u3"), (strL "720p", strL "u7")],
        getResolution k ≤ getResolution l) ∧
      getVideoUrl [(strL "360p", strL "u3"), (strL "720p", strL "u7")] (strL "best") =
        dlookup [(strL "360p", strL "u3"), (strL "720p", strL "u7")] l) ∧
    getVideoUrl [(strL "360p", strL "u3"), (strL "720p", strL "u7")] (strL "720p") =
      some (strL "u7") :=
  ⟨c3_selection_amended.1 [(strL "360p", strL "u3"), (strL "720p", strL "u7")]
      (by decide) (by decide) (by decide),
   c3_selection_amended.2.2 [(strL "360p", strL "u3"), (strL "720p", strL "u7")]
      (strL "720p") (strL "u7") (by decide) (by decide)⟩

/-- Counterexample for C3 as stated: the label `"default"` is present in
the map, yet selecting it returns the 720p URL, because normalization maps
`"default"` to `"best"` before the exact-label lookup. -/
theorem c3_counterexample :
    getVideoUrl [(strL "default", strL "http://d"), (strL "720p", strL "http://b")]
      (strL "default") = some (strL "http://b") ∧
    dlookup [(strL "default", strL "http://d"), (strL "720p", strL "http://b")]
      (strL "default") = some (strL "http://d") ∧
    strL "http://b" ≠ strL "http://d" := by
  decide

/-! ## C2 -/

theorem lastExn_eq (fetch : List Char → FetchOutcome) (vs : List (List Char)) :
    lastExn fetch vs = (vs.filterMap (exnOf fetch)).getLast? := rfl

theorem loadLoop_reject_step {fetch : List Char → FetchOutcome} {u : List Char}
    (rest : List (List Char)) (le : Option (List Char))
    (h : accepts (fetch u) = false) :
    loadLoop fetch (u :: rest) le =
      loadLoop fetch rest ((exnOf fetch u).elim le some) := by
  rw [loadLoop]
  unfold exnOf
  cases hf : fetch u with
  | exn e => rfl
  | ok status body =>
    rw [hf] at h
    simp only [accepts, Bool.and_eq_true] at h
    by_cases h404 : status == 404
    · simp [h404]
    · simp only [h404, Bool.false_eq_true, if_false, Option.elim]
      by_cases h200 : status == 200
      · have hbody : acceptsBody body = false := by
          cases hab : acceptsBody body
          · rfl
          · rw [hab] at h
            simp [h200] at h
        have hne : (status != 200) = false := by simp [bne, h200]
        rw [hne]
        simp only [Bool.false_eq_true, if_false]
        by_cases hvnf : hasSub (strL "Video not found") body
        · simp [hvnf]
        · have hvnf' : hasSub (strL "Video not found") body = false := by simpa using hvnf
          simp only [hvnf', Bool.false_eq_true, if_false]
          by_cases h404p : hasSub (strL "<title>404") body || hasSub (strL "Page not found") body
          · simp [h404p]
          · have h404p' : (hasSub (strL "<title>404") body ||
                hasSub (strL "Page not found") body) = false := by simpa using h404p
            simp only [h404p', Bool.false_eq_true, if_false]
            by_cases hshort : body.length < 1000
            · simp [hshort]
            · simp only [hshort, if_false]
              have hind : (isVideoPage body || decide (5000 < body.length)) = false := by
                by_contra hx
                rw [Bool.not_eq_false] at hx
                have hacc : acceptsBody body = true := by
                  unfold acceptsBody
                  rw [hvnf', h404p', hx]
                  simp [Nat.le_of_not_lt hshort]
                rw [hacc] at hbody
                simp at hbody
              rw [hind]
              simp
      · have hne : (status != 200) = true := by simp [bne, h200]
        simp [hne]

theorem loadLoop_all_rejected (fetch : List Char → FetchOutcome) :
    ∀ (vs : List (List Char)) (le : Option (List Char)),
      (∀ u ∈ vs, accepts (fetch u) = false) →
      loadLoop fetch vs le =
        match (le.toList ++ vs.filterMap (exnOf fetch)).getLast? with
        | some e => LoadResult.networkError e
        | none => LoadResult.notFound
  | [], le, _ => by
    cases le <;> rfl
  | u :: rest, le, h => by
    rw [loadLoop_reject_step rest le (h u (List.mem_cons_self u rest))]
    rw [loadLoop_all_rejected fetch rest _ (fun v hv => h v (List.mem_cons_of_mem u hv))]
    cases hf : exnOf fetch u with
    | none =>
      have : (u :: rest).filterMap (exnOf fetch) = rest.filterMap (exnOf fetch) := by
        simp [List.filterMap_cons, hf]
      rw [this]
      rfl
    | some e =>
      have h1 : (u :: rest).filterMap (exnOf fetch) = e :: rest.filterMap (exnOf fetch) := by
        simp [List.filterMap_cons, hf]
      rw [h1]
      have h2 : ((some e).toList ++ rest.filterMap (exnOf fetch)).getLast? =
          (le.toList ++ e :: rest.filterMap (exnOf fetch)).getLast? := by
        rw [List.getLast?_append_of_ne_nil _ (List.cons_ne_nil e _)]
        cases hrf : rest.filterMap (exnOf fetch) with
        | nil => rfl
        | cons x xs =>
          rw [show (some e).toList ++ x :: xs = [e] ++ x :: xs from rfl]
          rw [List.getLast?_append_of_ne_nil _ (List.cons_ne_nil x xs)]
          exact List.getLast?_cons_cons.symm
      simp only [Option.elim]
      rw [h2]

/-- C2 as amended: a non-200/non-404 status rejects the candidate but is
NOT remembered — only transport-level exceptions are recorded — and when
every candidate is rejected, load raises `NotFound` if no exception
occurred and `NetworkError` with the last exception otherwise. -/
theorem c2_load_errors_amended (fetch : List Char → FetchOutcome)
    (vs : List (List Char)) (h : ∀ u ∈ vs, accepts (fetch u) = false) :
    loadVideo fetch vs =
      match lastExn fetch vs with
      | some e => LoadResult.networkError e
      | none => LoadResult.notFound := by
  rw [loadVideo, loadLoop_all_rejected fetch vs none h, lastExn_eq]
  rfl

/-- Witness for C2's amended theorem: one exception then one 500 yields
`NetworkError` with the recorded exception. -/
theorem c2_load_errors_amended_witness :
    loadVideo (fun u => if u = strL "u1" then FetchOutcome.exn (strL "boom")
        else FetchOutcome.ok 500 []) [strL "u1", strL "u2"] =
      match lastExn (fun u => if u = strL "u1" then FetchOutcome.exn (strL "boom")
        else FetchOutcome.ok 500 []) [strL "u1", strL "u2"] with
      | some e => LoadResult.networkError e
      | none => LoadResult.notFound :=
  c2_load_errors_amended _ _ (by decide)

/-- Counterexample for C2 as stated: every candidate is answered 500 —
which the claim says is remembered as a transport error, forcing a final
`NetworkError` — yet the code records nothing and raises `NotFound`. -/
theorem c2_counterexample :
    allStatusesAre (fun _ => FetchOutcome.ok 500 []) 500 (getUrlVariants none (strL "42")) = true ∧
    loadVideo (fun _ => FetchOutcome.ok 500 []) (getUrlVariants none (strL "42")) =
      LoadResult.notFound ∧
    isNetworkErrorB (loadVideo (fun _ => FetchOutcome.ok 500 [])
      (getUrlVariants none (strL "42"))) = false := by
  decide

/-! ## C9 -/

theorem contains_append (x : List Char) (l1 l2 : List (List Char)) :
    (l1 ++ l2).contains x = (l1.contains x || l2.contains x) := by
  induction l1 with
  | nil => simp
  | cons a t ih => simp [List.contains_cons, ih, Bool.or_assoc]

theorem procFull_ids (maxr : Nat) :
    ∀ (ms : List (List Char × List Char × List Char)) (seen : List (List Char))
      (acc : List SEntry),
      (∀ i, seen.contains i = (acc.map SEntry.videoId).contains i) →
      (procFullMatches maxr ms seen acc).1.map SEntry.videoId =
        acc.map SEntry.videoId ++
          (dedupDigitIds seen (ms.map (fun m => m.2.1))).take (maxr - acc.length)
  | [], seen, acc, _ => by
    simp [procFullMatches, dedupDigitIds]
  | (path, vid, slug) :: ms, seen, acc, hinv => by
    rw [procFullMatches]
    simp only [List.map_cons]
    rw [dedupDigitIds]
    cases hg1 : (!vid.isEmpty && vid.all isAsciiDigit && !seen.contains vid) with
    | false =>
      simp only [Bool.false_and, Bool.false_eq_true, if_false]
      exact procFull_ids maxr ms seen acc hinv
    | true =>
      by_cases hlen : acc.length < maxr
      · rw [decide_eq_true hlen]
        simp only [Bool.and_self, if_true]
        have hfe : (fullEntry path vid slug).videoId = vid := rfl
        have hinv2 : ∀ i, (vid :: seen).contains i =
            ((acc ++ [fullEntry path vid slug]).map SEntry.videoId).contains i := by
          intro i
          rw [List.map_append, List.map_cons, List.map_nil, hfe, contains_append,
            List.contains_cons, hinv i, List.contains_cons]
          cases hiv : (i == vid) <;>
            cases hac : ((acc.map SEntry.videoId).contains i) <;> rfl
        have hL : (acc ++ [fullEntry path vid slug]).length = acc.length + 1 := by
          simp
        have hlen2 : maxr - acc.length = (maxr - (acc.length + 1)) + 1 := by omega
        rw [procFull_ids maxr ms (vid :: seen) (acc ++ [fullEntry path vid slug]) hinv2,
          hL, hlen2, List.take_succ_cons, List.map_append, List.map_cons, List.map_nil, hfe,
          List.append_assoc]
        rfl
      · have hd : decide (acc.length < maxr) = false := by
          simpa using hlen
        rw [hd]
        simp only [Bool.and_false, Bool.false_eq_true, if_false, if_true]
        rw [procFull_ids maxr ms seen acc hinv]
        have hlen0 : maxr - acc.length = 0 := by omega
        simp [hlen0]

theorem dedupDigitIds_not_seen :
    ∀ (is seen : List (List Char)) (x : List Char),
      x ∈ dedupDigitIds seen is → seen.contains x = false
  | [], seen, x, hx => by
    rw [dedupDigitIds] at hx
    exact absurd hx (List.not_mem_nil x)
  | i :: is, seen, x, hx => by
    rw [dedupDigitIds] at hx
    cases hg : (!i.isEmpty && i.all isAsciiDigit && !seen.contains i) with
    | false =>
      rw [hg] at hx
      simp only [Bool.false_eq_true, if_false] at hx
      exact dedupDigitIds_not_seen is seen x hx
    | true =>
      rw [hg] at hx
      simp only [if_true] at hx
      rcases List.mem_cons.mp hx with he | ht
      · subst he
        cases hb : seen.contains x with
        | false => rfl
        | true =>
          rw [hb] at hg
          simp at hg
      · have h2 := dedupDigitIds_not_seen is (i :: seen) x ht
        rw [List.contains_cons] at h2
        cases hs : seen.contains x with
        | false => rfl
        | true =>
          rw [hs] at h2
          simp at h2

theorem dedupDigitIds_nodup :
    ∀ (is seen : List (List Char)), (dedupDigitIds seen is).Nodup
  | [], seen => by
    rw [dedupDigitIds]
    exact List.nodup_nil
  | i :: is, seen => by
    rw [dedupDigitIds]
    cases hg : (!i.isEmpty && i.all isAsciiDigit && !seen.contains i) with
    | false =>
      simp only [Bool.false_eq_true, if_false]
      exact dedupDigitIds_nodup is seen
    | true =>
      simp only [if_true]
      refine List.nodup_cons.mpr ⟨?_, dedupDigitIds_nodup is (i :: seen)⟩
      intro hmem
      have h2 := dedupDigitIds_not_seen is (i :: seen) i hmem
      rw [List.contains_cons] at h2
      simp at h2

theorem searchPhase2_skip (html : List Char) (maxr : Nat)
    (s : List SEntry × List (List Char)) (h : s.1.isEmpty = false) :
    searchPhase2 html maxr s = s.1 := by
  simp [searchPhase2, searchPhase3, searchPhase4, h]

/-- C9: whenever pattern 1 of the search parser captures at least three
distinct all-digit ids on the page (three distinct id+slug links, possibly
with repeats), searching with a maximum of 2 results returns exactly 2
entries, their ids are the first two distinct captured ids in first-seen
order, and no id repeats. -/
theorem c9_listing_bound (html : List Char)
    (h3 : 3 ≤ (dedupDigitIds [] (p1Ids html)).length) :
    (searchEntries html 2).length = 2 ∧
    (searchEntries html 2).map SEntry.videoId = (dedupDigitIds [] (p1Ids html)).take 2 ∧
    ((searchEntries html 2).map SEntry.videoId).Nodup := by
  have hids : (procFullMatches 2 (p1Matches html) [] []).1.map SEntry.videoId =
      (dedupDigitIds [] (p1Ids html)).take 2 := by
    have h0 := procFull_ids 2 (p1Matches html) [] [] (fun i => rfl)
    simpa using h0
  have hlen : (procFullMatches 2 (p1Matches html) [] []).1.length = 2 := by
    have h1 := congrArg List.length hids
    rw [List.length_map, List.length_take] at h1
    omega
  have hne : (procFullMatches 2 (p1Matches html) [] []).1.isEmpty = false := by
    cases hq : (procFullMatches 2 (p1Matches html) [] []).1 with
    | nil =>
      rw [hq] at hlen
      simp at hlen
    | cons a t => rfl
  have hse : searchEntries html 2 = (procFullMatches 2 (p1Matches html) [] []).1 :=
    searchPhase2_skip html 2 _ hne
  rw [hse, hids]
  exact ⟨hlen, rfl,
    List.Nodup.sublist (List.take_sublist 2 _) (dedupDigitIds_nodup (p1Ids html) [])⟩

set_option maxRecDepth 8000 in
theorem c9_listing_bound_witness :
    3 ≤ (dedupDigitIds [] (p1Ids c9html)).length ∧
    ((searchEntries c9html 2).length = 2 ∧
      (searchEntries c9html 2).map SEntry.videoId = (dedupDigitIds [] (p1Ids c9html)).take 2 ∧
      ((searchEntries c9html 2).map SEntry.videoId).Nodup) :=
  ⟨by decide, c9_listing_bound c9html (by decide)⟩

/-! ## C6 -/

theorem ensureSlash_last (p : List Char) : (ensureSlash p).getLast? = some '/' := by
  unfold ensureSlash
  cases h : (p.getLast? == some '/') with
  | true =>
    simp only [if_true]
    exact eq_of_beq h
  | false =>
    simp only [Bool.false_eq_true, if_false]
    exact List.getLast?_concat p

theorem idEntry_last (v : List Char) : (idEntry v).fullPath.getLast? = some '/' := by
  show (strL "/video/" ++ v ++ strL "/").getLast? = some '/'
  rw [List.getLast?_append_of_ne_nil]
  · rfl
  · intro h
    exact absurd h (by decide)

theorem videos_not_pref (t : List Char) :
    (strL "/videos/").isPrefixOf (strL "/video/" ++ t) = false := rfl

theorem replaceFirst_pref (nd rep t : List Char) (h : nd ≠ []) :
    replaceFirst nd rep (nd ++ t) = rep ++ t := by
  cases nd with
  | nil => exact absurd rfl h
  | cons c r =>
    rw [List.cons_append, replaceFirst]
    have hp0 : (c :: r) <+: ((c :: r) ++ t) := List.prefix_append _ _
    rw [List.cons_append] at hp0
    have hp : (c :: r).isPrefixOf (c :: (r ++ t)) = true :=
      List.isPrefixOf_iff_prefix.mpr hp0
    rw [hp]
    simp only [if_true]
    have hd : (c :: (r ++ t)).drop (c :: r).length = t := by
      rw [List.length_cons, List.drop_succ_cons, List.drop_left]
    rw [hd]

theorem normPrefixPath_video {path : List Char}
    (h : (strL "/video/").isPrefixOf path = true ∨ (strL "/videos/").isPrefixOf path = true) :
    (strL "/video/").isPrefixOf (normPrefixPath path) = true := by
  unfold normPrefixPath
  rcases h with h | h
  · obtain ⟨t, rfl⟩ := List.isPrefixOf_iff_prefix.mp h
    rw [videos_not_pref]
    simp only [Bool.false_eq_true, if_false]
    exact h
  · obtain ⟨t, rfl⟩ := List.isPrefixOf_iff_prefix.mp h
    have hc : (strL "/videos/").isPrefixOf (strL "/videos/" ++ t) = true :=
      List.isPrefixOf_iff_prefix.mpr (List.prefix_append _ _)
    rw [hc]
    simp only [if_true]
    rw [replaceFirst_pref _ _ _ (by decide)]
    exact List.isPrefixOf_iff_prefix.mpr (List.prefix_append _ _)

theorem procFull_mem (maxr : Nat) (P : SEntry → Prop)
    (hP : ∀ path vid slug, P (fullEntry path vid slug)) :
    ∀ (ms : List (List Char × List Char × List Char)) (seen : List (List Char))
      (acc : List SEntry), (∀ e ∈ acc, P e) →
      ∀ e ∈ (procFullMatches maxr ms seen acc).1, P e
  | [], seen, acc, hacc => by
    rw [procFullMatches]
    exact hacc
  | (path, vid, slug) :: ms, seen, acc, hacc => by
    rw [procFullMatches]
    by_cases hg : (!vid.isEmpty && vid.all isAsciiDigit && !seen.contains vid &&
        decide (acc.length < maxr)) = true
    · rw [if_pos hg]
      refine procFull_mem maxr P hP ms (vid :: seen) (acc ++ [fullEntry path vid slug]) ?_
      intro e he
      rcases List.mem_append.mp he with h1 | h1
      · exact hacc e h1
      · rw [List.mem_singleton.mp h1]
        exact hP path vid slug
    · rw [if_neg hg]
      exact procFull_mem maxr P hP ms seen acc hacc

theorem procThumb_mem (maxr : Nat) (P : SEntry → Prop)
    (hP : ∀ path vid, P (thumbEntry path vid)) :
    ∀ (ms : List (List Char × List Char)) (seen : List (List Char))
      (acc : List SEntry), (∀ e ∈ acc, P e) →
      ∀ e ∈ (procThumbMatches maxr ms seen acc).1, P e
  | [], seen, acc, hacc => by
    rw [procThumbMatches]
    exact hacc
  | (path, vid) :: ms, seen, acc, hacc => by
    rw [procThumbMatches]
    by_cases hg : (!vid.isEmpty && vid.all isAsciiDigit && !seen.contains vid &&
        decide (acc.length < maxr)) = true
    · rw [if_pos hg]
      refine procThumb_mem maxr P hP ms (vid :: seen) (acc ++ [thumbEntry path vid]) ?_
      intro e he
      rcases List.mem_append.mp he with h1 | h1
      · exact hacc e h1
      · rw [List.mem_singleton.mp h1]
        exact hP path vid
    · rw [if_neg hg]
      exact procThumb_mem maxr P hP ms seen acc hacc

theorem procId_mem (maxr : Nat) (P : SEntry → Prop) (hP : ∀ vid, P (idEntry vid)) :
    ∀ (ms : List (List Char)) (seen : List (List Char))
      (acc : List SEntry), (∀ e ∈ acc, P e) →
      ∀ e ∈ (procIdMatches maxr ms seen acc).1, P e
  | [], seen, acc, hacc => by
    rw [procIdMatches]
    exact hacc
  | vid :: ms, seen, acc, hacc => by
    rw [procIdMatches]
    by_cases hg : (!vid.isEmpty && vid.all isAsciiDigit && !seen.contains vid &&
        decide (acc.length < maxr)) = true
    · rw [if_pos hg]
      refine procId_mem maxr P hP ms (vid :: seen) (acc ++ [idEntry vid]) ?_
      intro e he
      rcases List.mem_append.mp he with h1 | h1
      · exact hacc e h1
      · rw [List.mem_singleton.mp h1]
        exact hP vid
    · rw [if_neg hg]
      exact procId_mem maxr P hP ms seen acc hacc

theorem searchEntries_mem (html : List Char) (maxr : Nat) (P : SEntry → Prop)
    (hfull : ∀ path vid slug, P (fullEntry path vid slug))
    (hthumb : ∀ path vid, P (thumbEntry path vid))
    (hid : ∀ vid, P (idEntry vid)) :
    ∀ e ∈ searchEntries html maxr, P e := by
  have h4 : ∀ s : List SEntry × List (List Char), (∀ e ∈ s.1, P e) →
      ∀ e ∈ searchPhase4 html maxr s, P e := by
    intro s hs
    unfold searchPhase4
    by_cases h : s.1.isEmpty = true
    · rw [if_pos h]
      exact procId_mem maxr P hid _ s.2 s.1 hs
    · rw [if_neg h]
      exact hs
  have h3 : ∀ s : List SEntry × List (List Char), (∀ e ∈ s.1, P e) →
      ∀ e ∈ searchPhase3 html maxr s, P e := by
    intro s hs
    unfold searchPhase3
    apply h4
    by_cases h : s.1.isEmpty = true
    · rw [if_pos h]
      exact procThumb_mem maxr P hthumb _ s.2 s.1 hs
    · rw [if_neg h]
      exact hs
  have h2 : ∀ s : List SEntry × List (List Char), (∀ e ∈ s.1, P e) →
      ∀ e ∈ searchPhase2 html maxr s, P e := by
    intro s hs
    unfold searchPhase2
    apply h3
    by_cases h : s.1.isEmpty = true
    · rw [if_pos h]
      exact procFull_mem maxr P hfull _ s.2 s.1 hs
    · rw [if_neg h]
      exact hs
  unfold searchEntries
  apply h2
  exact procFull_mem maxr P hfull _ [] [] (fun e he => absurd he (List.not_mem_nil e))

theorem procTag_mem (maxr : Nat) (P : SEntry → Prop) :
    ∀ (ms : List (List Char × List Char × List Char)) (seen : List (List Char))
      (acc : List SEntry), (∀ e ∈ acc, P e) →
      (∀ path vid slug, (path, vid, slug) ∈ ms → P (tagEntry path vid slug)) →
      ∀ e ∈ procTagMatches maxr ms seen acc, P e
  | [], seen, acc, hacc, _ => by
    rw [procTagMatches]
    exact hacc
  | (path, vid, slug) :: ms, seen, acc, hacc, hms => by
    rw [procTagMatches]
    have hms' : ∀ p v s, (p, v, s) ∈ ms → P (tagEntry p v s) :=
      fun p v s hm => hms p v s (List.mem_cons_of_mem _ hm)
    by_cases hg : (!seen.contains vid && decide (acc.length < maxr)) = true
    · rw [if_pos hg]
      refine procTag_mem maxr P ms (vid :: seen) (acc ++ [tagEntry path vid slug]) ?_ hms'
      intro e he
      rcases List.mem_append.mp he with h1 | h1
      · exact hacc e h1
      · rw [List.mem_singleton.mp h1]
        exact hms path vid slug (List.mem_cons_self _ _)
    · rw [if_neg hg]
      exact procTag_mem maxr P ms seen acc hacc hms'

/-- C6 (amended): entries of `Client.search` always have a canonical path
ending in a trailing "/" (all three fallback layers append one), and
entries of `get_videos_by_tag` / `get_videos_by_category` have their
plural "/videos/" prefix normalized to the singular "/video/" whenever
every captured link path starts with "/video/" or "/videos/" — but the
tag/category loop appends no trailing slash (see the counterexample). -/
theorem c6_listing_paths_amended (html : List Char) (maxr : Nat) :
    (∀ e ∈ searchEntries html maxr, e.fullPath.getLast? = some '/') ∧
    ((∀ m ∈ findAll matchTagLinkAt html,
        (strL "/video/").isPrefixOf m.1 = true ∨ (strL "/videos/").isPrefixOf m.1 = true) →
      ∀ e ∈ byTagEntries html maxr, (strL "/video/").isPrefixOf e.fullPath = true) := by
  constructor
  · exact searchEntries_mem html maxr (fun e => e.fullPath.getLast? = some '/')
      (fun path vid slug => ensureSlash_last _)
      (fun path vid => ensureSlash_last _)
      idEntry_last
  · intro hms
    unfold byTagEntries
    refine procTag_mem maxr (fun e => (strL "/video/").isPrefixOf e.fullPath = true)
      (findAll matchTagLinkAt html) [] []
      (fun e he => absurd he (List.not_mem_nil e)) ?_
    intro path vid slug hm
    exact normPrefixPath_video (hms (path, vid, slug) hm)

set_option maxRecDepth 8000 in
theorem c6_listing_paths_amended_witness :
    ((∀ e ∈ searchEntries c9html 2, e.fullPath.getLast? = some '/') ∧
      (∀ e ∈ byTagEntries c9html 2, (strL "/video/").isPrefixOf e.fullPath = true)) :=
  ⟨(c6_listing_paths_amended c9html 2).1,
   (c6_listing_paths_amended c9html 2).2 (by decide)⟩

set_option maxRecDepth 8000 in
theorem c6_counterexample :
    (byTagEntries c6html 20).map SEntry.fullPath = [strL "/video/123/cool-vid"] ∧
    ∀ e ∈ byTagEntries c6html 20, e.fullPath.getLast? ≠ some '/' := by
  decide

/-! ## C1 -/

theorem dlookup_dictSet (m : QMap) (k v q : List Char) :
    dlookup (dictSet m k v) q = if k == q then some v else dlookup m q := by
  induction m with
  | nil =>
    simp only [dictSet, dlookup]
  | cons p rest ih =>
    obtain ⟨k', v'⟩ := p
    simp only [dictSet]
    cases h : (k' == k) with
    | true =>
      have e1 : k' = k := eq_of_beq h
      subst e1
      simp only [if_true, dlookup]
      cases h2 : (k' == q) <;> simp
    | false =>
      simp only [Bool.false_eq_true, if_false, dlookup, ih]
      cases h2 : (k' == q) with
      | true =>
        have hkq : (k == q) = false := by
          cases h3 : (k == q) with
          | false => rfl
          | true =>
            rw [show k' = k from (eq_of_beq h2).trans (eq_of_beq h3).symm] at h
            simp at h
        rw [hkq]
        simp
      | false => simp

theorem pass5Write_preserves (content : List Char) (q : List Char) (m : QMap)
    (p : List (List Char) × List Char) (h : (dlookup m q).isSome = true) :
    dlookup (pass5Write content m p) q = dlookup m q := by
  unfold pass5Write
  by_cases h1 : (dlookup m p.2).isSome = true
  · rw [if_pos h1]
  · rw [if_neg h1]
    cases hs : searchPat (matchQualityKeyAt p.1) content with
    | none => rfl
    | some u =>
      show dlookup (if (cleanVideoUrl u).isEmpty then m
          else dictSet m p.2 (cleanVideoUrl u)) q = dlookup m q
      by_cases h2 : (cleanVideoUrl u).isEmpty = true
      · rw [if_pos h2]
      · rw [if_neg h2, dlookup_dictSet]
        have hne : (p.2 == q) = false := by
          cases hb : (p.2 == q) with
          | false => rfl
          | true =>
            rw [eq_of_beq hb] at h1
            exact absurd h h1
        rw [hne]
        simp

theorem pass5_foldl_preserves (content : List Char) (q : List Char) :
    ∀ (ps : List (List (List Char) × List Char)) (m : QMap),
      (dlookup m q).isSome = true →
      dlookup (ps.foldl (pass5Write content) m) q = dlookup m q
  | [], _, _ => rfl
  | p :: ps, m, h => by
    rw [List.foldl_cons]
    have hstep := pass5Write_preserves content q m p h
    have h2 : (dlookup (pass5Write content m p) q).isSome = true := by
      rw [hstep]
      exact h
    rw [pass5_foldl_preserves content q ps (pass5Write content m p) h2, hstep]

theorem dlookup_isSome_nonempty {m : QMap} {q : List Char}
    (h : (dlookup m q).isSome = true) : m.isEmpty = false := by
  cases m with
  | nil => simp [dlookup] at h
  | cons p rest => rfl

theorem pass6Apply_nonempty (content : List Char) (m : QMap) (h : m.isEmpty = false) :
    pass6Apply content m = m := by
  unfold pass6Apply
  rw [h]
  rfl

theorem pass7Apply_nonempty (content : List Char) (m : QMap) (h : m.isEmpty = false) :
    pass7Apply content m = m := by
  unfold pass7Apply
  rw [h]
  rfl

/-- C1 (amended): from pass 5 onwards the quality map obeys
first-writer-wins — any label present after the four unconditional
extraction passes (flashvars, kt_player, JSON sources, HTML5 source tags)
keeps its URL through the guarded quality-pattern pass, the blanket
`.mp4` scan and the generic fallback pass.  The four unconditional passes
themselves overwrite earlier writers (see the counterexample). -/
theorem c1_first_writer_amended (content q : List Char)
    (h : (dlookup (qmapThrough4 content) q).isSome = true) :
    dlookup (parseQualityUrls content) q = dlookup (qmapThrough4 content) q := by
  unfold parseQualityUrls
  have h5 : dlookup (pass5Apply content (qmapThrough4 content)) q =
      dlookup (qmapThrough4 content) q := by
    unfold pass5Apply
    exact pass5_foldl_preserves content q qualityPatternList (qmapThrough4 content) h
  have h5s : (dlookup (pass5Apply content (qmapThrough4 content)) q).isSome = true := by
    rw [h5]
    exact h
  have hne5 : (pass5Apply content (qmapThrough4 content)).isEmpty = false :=
    dlookup_isSome_nonempty h5s
  rw [pass6Apply_nonempty content _ hne5, pass7Apply_nonempty content _ hne5, h5]

set_option maxRecDepth 10000 in
theorem c1_first_writer_amended_witness :
    (dlookup (qmapThrough4 c1content) (strL "720p")).isSome = true ∧
    dlookup (parseQualityUrls c1content) (strL "720p") =
      dlookup (qmapThrough4 c1content) (strL "720p") :=
  ⟨by decide, c1_first_writer_amended c1content (strL "720p") (by decide)⟩

set_option maxRecDepth 10000 in
theorem c1_counterexample :
    dlookup (qmapPass1 c1content) (strL "720p") =
      some (strL "https://cdn.example.com/v_720.mp4") ∧
    dlookup (parseQualityUrls c1content) (strL "720p") =
      some (strL "https://alt.example.com/k_720.mp4") ∧
    strL "https://cdn.example.com/v_720.mp4" ≠ strL "https://alt.example.com/k_720.mp4" := by
  decide

end R34
